import Mathlib

/-!
Verification of the 5-Liber-Wett ledger core (src/main.py).

Modelling conventions:
* Money is represented in integer cents (`Int`). The source works with
  `Decimal` values that are quantized to two decimal places (`q`) at every
  operation boundary, so every stored amount is an exact multiple of 0.01 and
  integer cents are a lossless representation; `q` on an already-quantized
  value is the identity.  The one place the source divides (`q(t.delta / n)`
  in `person_totals`, `n ∈ {1,2}`) uses `ROUND_HALF_UP` (ties away from
  zero), modelled by `qdivHalfUp`.
* `datetime` values are abstracted to `Int` instants.  All in-memory
  timestamps of the source are timezone-aware values in the fixed zone
  `CH_TZ`, for which `fromisoformat (isoformat t) == t` and
  `astimezone CH_TZ` is the identity; the pair `isoformat` / `parseIso`
  models this injective encoding and its partial inverse (parsing fails on
  malformed text).  Operations that stamp `datetime.now(CH_TZ)` take the
  current instant as an explicit `now` argument.
* Mutating `Pot` methods are modelled as functions `Pot → ... → String × Pot`
  returning the user message produced by the source together with the new
  state.
-/

namespace FiveLiber

inductive Kind where
  | BET
  | BEER
  | TRANSFER
deriving DecidableEq, Repr

def Kind.value : Kind → String
  | .BET => "BET"
  | .BEER => "BEER"
  | .TRANSFER => "TRANSFER"

structure Transaction where
  timestamp : Int
  kind : Kind
  losers : String
  comment : String
  delta : Int
  payer : String := ""
  receiver : String := ""
  transfer_amount : Int := 0
deriving DecidableEq, Repr

structure Pot where
  balance : Int := 0
  history : List Transaction := []
  last_reset : Option Int := none
deriving DecidableEq, Repr

/-- Digit characters of a natural number, most significant first
(fuel-driven so that it is structurally recursive and kernel-reducible). -/
def natDigitsAux : Nat → Nat → List Char → List Char
  | 0, _, acc => acc
  | fuel + 1, n, acc =>
    if n < 10 then Char.ofNat (48 + n) :: acc
    else natDigitsAux fuel (n / 10) (Char.ofNat (48 + n % 10) :: acc)

def natDigits (n : Nat) : List Char := natDigitsAux (n + 1) n []

/-- Decimal printing of an integer, e.g. `-12`. -/
def intDigits (i : Int) : List Char :=
  if i < 0 then '-' :: natDigits i.natAbs else natDigits i.natAbs

/-- Abstract `datetime.isoformat` on the modelled instants. -/
def isoformat (t : Int) : String := String.mk (intDigits t)

/-- Fixed two-decimal rendering of a cent amount, e.g. `f"{q(x):.2f}"`:
`-5` cents prints as `-0.05`. -/
def formatCents (n : Int) : String :=
  let a := n.natAbs
  let frac := a % 100
  String.mk ((if n < 0 then ['-'] else []) ++ natDigits (a / 100) ++
    '.' :: (if frac < 10 then '0' :: natDigits frac else natDigits frac))

/-- `chf` from the source: `f"{q(amount):.2f} CHF"`. -/
def chf (n : Int) : String := formatCents n ++ " CHF"

/-- Sum of `delta` over the `BET` and `BEER` entries, as accumulated by
`Pot.recalc_balance` in the source. -/
def recalcTotal (h : List Transaction) : Int :=
  h.foldl (fun acc t => if t.kind = Kind.BET ∨ t.kind = Kind.BEER then acc + t.delta else acc) 0

def Pot.recalc_balance (p : Pot) : Pot :=
  { p with balance := recalcTotal p.history }

/-- List prefix test on characters. -/
def listPrefixOf : List Char → List Char → Bool
  | [], _ => true
  | _ :: _, [] => false
  | a :: as, b :: bs => a = b && listPrefixOf as bs

/-- Substring containment on character lists. -/
def listContains (pat : List Char) : List Char → Bool
  | [] => pat.isEmpty
  | c :: cs => listPrefixOf pat (c :: cs) || listContains pat cs

/-- Python `pat in hay` substring test. -/
def strContains (hay pat : String) : Bool := listContains pat.toList hay.toList

/-- Python `s.startswith(pre)`. -/
def strStartsWith (s pre : String) : Bool := listPrefixOf pre.toList s.toList

/-- The whitespace characters stripped by Python `str.strip()` (ASCII
fragment; the repository only ever strips user comments and decimal/ISO
strings). -/
def isPySpace (c : Char) : Bool :=
  c == ' ' || c == '\t' || c == '\n' || c == '\r' || c == Char.ofNat 11 || c == Char.ofNat 12

/-- Python `s.strip()`. -/
def pyStrip (s : String) : String :=
  String.mk (((s.toList.dropWhile isPySpace).reverse.dropWhile isPySpace).reverse)

/-- ASCII `str.lower()` on one character. -/
def pyToLower (c : Char) : Char :=
  if 65 ≤ c.toNat ∧ c.toNat ≤ 90 then Char.ofNat (c.toNat + 32) else c

/-- Python `s.lower()` (ASCII fragment, which covers the header names and
the `# last_reset=` prefix the source lowercases). -/
def strToLower (s : String) : String := String.mk (s.toList.map pyToLower)

/-- `q(d / n)` of the source for cent amount `d` and loser count `n > 0`:
division followed by quantization to cents with `ROUND_HALF_UP`
(ties away from zero). -/
def qdivHalfUp (d n : Int) : Int :=
  if 0 ≤ d then (2 * d + n) / (2 * n) else -((2 * (-d) + n) / (2 * n))

/-- One step of the `Pot.person_totals` fold of the source. -/
def person_step (acc : Int × Int) (t : Transaction) : Int × Int :=
  let sven := acc.1
  let sevi := acc.2
  if t.kind = Kind.BET ∧ 0 < t.delta then
    let svenL := strContains t.losers "Sven verliert"
    let seviL := strContains t.losers "Sevi verliert"
    let n : Int := (if svenL then 1 else 0) + (if seviL then 1 else 0)
    if n = 0 then acc
    else
      let share := qdivHalfUp t.delta n
      (if svenL then sven + share else sven, if seviL then sevi + share else sevi)
  else if t.kind = Kind.BEER ∧ t.delta < 0 then
    if t.payer = "Sven" then (sven + t.delta, sevi)
    else if t.payer = "Sevi" then (sven, sevi + t.delta)
    else acc
  else if t.kind = Kind.TRANSFER then
    let amt := t.transfer_amount
    let mid : Int × Int :=
      if t.payer = "Sven" then (sven - amt, sevi)
      else if t.payer = "Sevi" then (sven, sevi - amt)
      else (sven, sevi)
    if t.receiver = "Sven" then (mid.1 + amt, mid.2)
    else if t.receiver = "Sevi" then (mid.1, mid.2 + amt)
    else mid
  else acc

/-- `Pot.person_totals` of the source (the trailing `q` is the identity on
cent amounts). -/
def Pot.person_totals (p : Pot) : Int × Int :=
  p.history.foldl person_step (0, 0)

/-- `Pot.add_bet` of the source. -/
def Pot.add_bet (p : Pot) (sven_right sevi_right : Bool) (comment : String)
    (stake : Int) (now : Int) : String × Pot :=
  if stake ≤ 0 then ("Fehler: Einsatz muss > 0 sein.", p)
  else
    let deposit := (if sven_right then 0 else stake) + (if sevi_right then 0 else stake)
    let losersList := (if sven_right then ([] : List String) else ["Sven verliert"]) ++
      (if sevi_right then [] else ["Sevi verliert"])
    let losersList := if losersList.isEmpty then ["beide richtig"] else losersList
    let losers_text := String.intercalate ", " losersList
    let newBalance := p.balance + deposit
    ("Wette verbucht: " ++ losers_text ++ ". Neuer Saldo: " ++ chf newBalance,
      { p with
        balance := newBalance,
        history := p.history ++
          [{ timestamp := now, kind := Kind.BET, losers := losers_text,
             comment := pyStrip comment, delta := deposit }] })

/-- `Pot.pay_beer` of the source. -/
def Pot.pay_beer (p : Pot) (amount : Int) (payer comment : String) (now : Int) :
    String × Pot :=
  if amount ≤ 0 then ("Fehler: Betrag muss > 0 sein.", p)
  else if p.balance < amount then
    ("Fehler: Betrag " ++ chf amount ++ " übersteigt den Saldo " ++ chf p.balance ++ ".", p)
  else
    let newBalance := p.balance - amount
    ("Bezahlt: " ++ chf amount ++ " für Bier (Zahler: " ++ payer ++ "). Neuer Saldo: " ++
        chf newBalance,
      { p with
        balance := newBalance,
        history := p.history ++
          [{ timestamp := now, kind := Kind.BEER, losers := "Bier bezahlt",
             comment := pyStrip comment, delta := -amount, payer := payer }] })

/-- `Pot.transfer` of the source. -/
def Pot.transfer (p : Pot) (amount : Int) (payer receiver comment : String)
    (now : Int) : String × Pot :=
  if amount ≤ 0 then ("Fehler: Betrag muss > 0 sein.", p)
  else if payer = receiver then
    ("Fehler: Zahler und Empfänger dürfen nicht identisch sein.", p)
  else
    let totals := p.person_totals
    let available := if payer = "Sven" then totals.1 else totals.2
    if available < amount then
      ("Fehler: " ++ payer ++ " hat nur " ++ chf available ++ " verfügbar für Transfer.", p)
    else
      ("Transfer verbucht: " ++ payer ++ " → " ++ receiver ++ " " ++ chf amount ++
          " (Pot unverändert: " ++ chf p.balance ++ ")",
        { p with
          history := p.history ++
            [{ timestamp := now, kind := Kind.TRANSFER, losers := "", comment := comment,
               delta := 0, payer := payer, receiver := receiver,
               transfer_amount := amount }] })

/-- `Pot.reset` of the source. -/
def Pot.reset (_p : Pot) (now : Int) : Pot :=
  { balance := 0, history := [], last_reset := some now }

/-- `delete_selected` / `confirm_delete` of the source: bounds check, then
delete the entry and recompute the balance. -/
def delete_txn (p : Pot) (idx : Nat) : Pot :=
  if idx < p.history.length then
    let h := p.history.eraseIdx idx
    { p with history := h, balance := recalcTotal h }
  else p

/-- Shared tail of `open_edit_bet_dialog.apply_change`: replace the losers
text, comment and delta of the entry at `idx`, then recompute the balance. -/
def applyBetEdit (p : Pot) (idx : Nat) (t : Transaction) (newLosers : List String)
    (comment : String) (deposit : Int) : String × Pot :=
  let t2 := { t with
    losers := if newLosers.isEmpty then "beide richtig" else String.intercalate ", " newLosers,
    comment := pyStrip comment, delta := deposit }
  let h := p.history.set idx t2
  ("Wette aktualisiert.", { p with history := h, balance := recalcTotal h })

/-- `open_edit_bet_dialog` + its `apply_change` of the source.  The stake
input is `none` when the text field is empty. -/
def edit_bet (p : Pot) (idx : Nat) (svenLoses seviLoses : Bool)
    (stakeRaw : Option Int) (comment : String) : String × Pot :=
  match p.history[idx]? with
  | none => ("Ungültige Auswahl.", p)
  | some t =>
    if t.kind ≠ Kind.BET then ("Nur Wetten können hier bearbeitet werden.", p)
    else
      let newLosers := (if svenLoses then ["Sven verliert"] else []) ++
        (if seviLoses then ["Sevi verliert"] else [])
      if 0 < newLosers.length then
        match stakeRaw with
        | none => ("Bitte Einsatz eingeben.", p)
        | some st =>
          if st ≤ 0 then ("Einsatz muss > 0 sein.", p)
          else applyBetEdit p idx t newLosers comment (st * newLosers.length)
      else applyBetEdit p idx t newLosers comment 0

/-- `open_edit_beer_dialog` + its `apply_change` of the source. -/
def edit_beer (p : Pot) (idx : Nat) (payerSel : String) (amountRaw : Option Int)
    (comment : String) : String × Pot :=
  match p.history[idx]? with
  | none => ("Ungültige Auswahl.", p)
  | some t =>
    if t.kind ≠ Kind.BEER then ("Nur Bierkäufe können hier bearbeitet werden.", p)
    else
      match amountRaw with
      | none => ("Bitte Betrag eingeben.", p)
      | some amt =>
        if amt ≤ 0 then ("Betrag muss > 0 sein.", p)
        else
          let t2 := { t with
              payer := if payerSel = "" then "Sven" else payerSel,
              comment := pyStrip comment,
              delta := -amt }
          let h := p.history.set idx t2
          ("Bier-Eintrag aktualisiert.", { p with history := h, balance := recalcTotal h })

/-- `update_info` of `open_edit_transfer_dialog`: the person totals with the
transfer being edited neutralized, projected to the selected payer. -/
def availEditTransfer (p : Pot) (t : Transaction) (pay : String) : Int :=
  let totals := p.person_totals
  let adj :=
    if t.payer = "Sven" then (totals.1 + t.transfer_amount, totals.2 - t.transfer_amount)
    else if t.payer = "Sevi" then (totals.1 - t.transfer_amount, totals.2 + t.transfer_amount)
    else totals
  if pay = "Sven" then adj.1 else adj.2

/-- `open_edit_transfer_dialog` + its `apply_change` of the source.  Note
that the source updates payer, receiver, amount and comment but does not
recompute the balance on this path. -/
def edit_transfer (p : Pot) (idx : Nat) (payerSel : String) (amountRaw : Option Int)
    (comment : String) : String × Pot :=
  match p.history[idx]? with
  | none => ("Ungültige Auswahl.", p)
  | some t =>
    if t.kind ≠ Kind.TRANSFER then ("Nur Transfers können hier bearbeitet werden.", p)
    else
      match amountRaw with
      | none => ("Bitte Betrag eingeben.", p)
      | some amt =>
        if amt ≤ 0 then ("Betrag muss > 0 sein.", p)
        else
          let pay := if payerSel = "" then "Sven" else payerSel
          let recv := if pay = "Sven" then "Sevi" else "Sven"
          let avail := availEditTransfer p t pay
          if avail < amt then (payerSel ++ " hat nur " ++ chf avail ++ " verfügbar.", p)
          else
            let t2 := { t with
                payer := pay,
                receiver := recv,
                transfer_amount := amt,
                comment := pyStrip comment }
            ("Transfer aktualisiert.", { p with history := p.history.set idx t2 })

/-- One step of the per-person reduction exactly as the specification words
it: a `Bet` with positive deposit splits the deposit evenly among the
participants marked as losers (full deposit to a single loser, half-up
quantized halves to two), a `Bet` with zero deposit contributes nothing, a
`Purchase` with amount `-delta` decreases the payer total by that amount,
and a `Transfer` debits the payer and credits the receiver by the transfer
amount. -/
def spec_person_step (acc : Int × Int) (t : Transaction) : Int × Int :=
  let sven := acc.1
  let sevi := acc.2
  match t.kind with
  | Kind.BET =>
    if 0 < t.delta then
      let svenL := strContains t.losers "Sven verliert"
      let seviL := strContains t.losers "Sevi verliert"
      let n : Int := (if svenL then 1 else 0) + (if seviL then 1 else 0)
      if n = 0 then acc
      else
        let share := qdivHalfUp t.delta n
        (if svenL then sven + share else sven, if seviL then sevi + share else sevi)
    else acc
  | Kind.BEER =>
    let amount := -t.delta
    if t.payer = "Sven" then (sven - amount, sevi)
    else if t.payer = "Sevi" then (sven, sevi - amount)
    else acc
  | Kind.TRANSFER =>
    let amt := t.transfer_amount
    let mid : Int × Int :=
      if t.payer = "Sven" then (sven - amt, sevi)
      else if t.payer = "Sevi" then (sven, sevi - amt)
      else (sven, sevi)
    if t.receiver = "Sven" then (mid.1 + amt, mid.2)
    else if t.receiver = "Sevi" then (mid.1, mid.2 + amt)
    else mid

/-- The per-person totals as the specification describes them. -/
def spec_person_totals (p : Pot) : Int × Int :=
  p.history.foldl spec_person_step (0, 0)

/-- The cached-balance invariant of the specification: the stored balance
equals the recomputation from history. -/
def balanceInv (p : Pot) : Prop := p.balance = recalcTotal p.history

/-- The persisted JSON state (fields already decoded, as produced by
`Transaction.from_dict` and the `last_reset` branch of `Pot.from_data`). -/
structure StoredState where
  balance : Int
  history : List Transaction
  last_reset : Option Int
deriving DecidableEq, Repr

/-- `Pot.from_data` of the source: installs the stored balance, history and
last reset. -/
def from_data (s : StoredState) : Pot :=
  { balance := s.balance, history := s.history, last_reset := s.last_reset }

/-- `load_state` of the source (JSON branch): `from_data` followed by
`recalc_balance`. -/
def load_state (s : StoredState) : Pot :=
  (from_data s).recalc_balance

/-- The characters at which Python `str.splitlines` breaks
(LF, VT, FF, CR, FS, GS, RS, NEL, LINE SEPARATOR, PARAGRAPH SEPARATOR). -/
def isPyLineBreak (c : Char) : Bool :=
  c == Char.ofNat 10 || c == Char.ofNat 11 || c == Char.ofNat 12 || c == Char.ofNat 13 ||
  c == Char.ofNat 28 || c == Char.ofNat 29 || c == Char.ofNat 30 || c == Char.ofNat 133 ||
  c == Char.ofNat 0x2028 || c == Char.ofNat 0x2029

def splitlinesGo : Bool → List Char → List Char → List String
  | _, acc, [] => if acc.isEmpty then [] else [String.mk acc.reverse]
  | skipLF, acc, c :: rest =>
    if skipLF ∧ c = '\n' then splitlinesGo false acc rest
    else if c = '\r' then String.mk acc.reverse :: splitlinesGo true [] rest
    else if isPyLineBreak c then String.mk acc.reverse :: splitlinesGo false [] rest
    else splitlinesGo false (c :: acc) rest

/-- Python `str.splitlines` (no terminators kept, `\r\n` is one break — the
`skipLF` flag swallows the `\n` of a `\r\n` pair — and a trailing break
produces no extra empty line). -/
def splitlines (s : String) : List String := splitlinesGo false [] s.toList

/-- Whether `csv.writer` (excel dialect, QUOTE_MINIMAL) quotes a field: it
contains the delimiter, the quote character, or a line-terminator
character. -/
def needsQuote (s : String) : Bool :=
  s.toList.any (fun c => c == ',' || c == '"' || c == '\r' || c == '\n')

/-- Double every quote character, as `csv.writer` escapes quotes. -/
def dqChars : List Char → List Char
  | [] => []
  | c :: cs => if c = '"' then '"' :: '"' :: dqChars cs else c :: dqChars cs

def quoteFieldChars (s : String) : List Char :=
  if needsQuote s then '"' :: (dqChars s.toList ++ ['"']) else s.toList

/-- The body of one CSV record: fields joined by commas, each quoted when
needed. -/
def csvBody : List String → List Char
  | [] => []
  | [f] => quoteFieldChars f
  | f :: fs => quoteFieldChars f ++ ',' :: csvBody fs

/-- One `csv.writer.writerow`: record body plus the `\r\n` terminator of the
excel dialect. -/
def writeRecord (fs : List String) : String := String.mk (csvBody fs ++ ['\r', '\n'])

/-- The fixed header row written by `export_csv`. -/
def csvHeader : List String :=
  ["timestamp", "kind", "delta", "losers", "payer", "receiver", "transfer_amount", "comment"]

/-- The row written for one transaction by `export_csv`. -/
def txnFields (t : Transaction) : List String :=
  [isoformat t.timestamp, t.kind.value, formatCents t.delta, t.losers, t.payer,
    t.receiver, formatCents t.transfer_amount, t.comment]

/-- The row block of the export: one `writerow` per history entry. -/
def exportRows : List Transaction → String
  | [] => ""
  | t :: ts => writeRecord (txnFields t) ++ exportRows ts

/-- `export_csv` of the source: optional `last_reset` comment line, the fixed
header, then one row per history entry in history order. -/
def export_csv (p : Pot) : String :=
  (match p.last_reset with
   | some lr => "# last_reset=" ++ isoformat lr ++ "\n"
   | none => "") ++
  writeRecord csvHeader ++ exportRows p.history

/-- Parser state of the `csv.reader` state machine (excel dialect,
non-strict). -/
inductive CsvState where
  | startField
  | inField
  | inQuoted
  | quoteInQuoted
deriving DecidableEq, Repr

/-- Outcome of feeding one input line to the reader: either a finished
record, or an unterminated quoted field carried into the next line. -/
inductive LineOutcome where
  | endRec (r : List String)
  | contQuoted (field : List Char) (r : List String)
deriving DecidableEq, Repr

/-- The `csv.reader` character automaton on a single line.  At end of line a
blank line yields the empty record (which `DictReader` skips), an open
quoted field is carried over to the next line (the reader resumes it there
without inserting any separator), and any other state closes the record. -/
def lineRun : CsvState → List Char → List String → List Char → LineOutcome
  | st, field, r, [] =>
    match st with
    | .startField => .endRec (if r.isEmpty then [] else r ++ [""])
    | .inField => .endRec (r ++ [String.mk field])
    | .inQuoted => .contQuoted field r
    | .quoteInQuoted => .endRec (r ++ [String.mk field])
  | st, field, r, c :: cs =>
    match st with
    | .startField =>
      if c = ',' then lineRun .startField [] (r ++ [""]) cs
      else if c = '"' then lineRun .inQuoted [] r cs
      else lineRun .inField [c] r cs
    | .inField =>
      if c = ',' then lineRun .startField [] (r ++ [String.mk field]) cs
      else lineRun .inField (field ++ [c]) r cs
    | .inQuoted =>
      if c = '"' then lineRun .quoteInQuoted field r cs
      else lineRun .inQuoted (field ++ [c]) r cs
    | .quoteInQuoted =>
      if c = '"' then lineRun .inQuoted (field ++ ['"']) r cs
      else if c = ',' then lineRun .startField [] (r ++ [String.mk field]) cs
      else lineRun .inField (field ++ [c]) r cs

/-- `csv.reader` over a list of lines (as the source feeds `splitlines`
output to `csv.DictReader`): an open quoted field at end of input closes the
final record. -/
def runLines : Option (List Char × List String) → List String → List (List String)
  | none, [] => []
  | some (field, r), [] => [r ++ [String.mk field]]
  | carry, l :: rest =>
    let outcome :=
      match carry with
      | none => lineRun .startField [] [] l.toList
      | some (field, r) => lineRun .inQuoted field r l.toList
    match outcome with
    | .endRec r => r :: runLines none rest
    | .contQuoted f r => runLines (some (f, r)) rest

/-- `Kind(value)` of the source: exact match on the enum string. -/
def parseKind (s : String) : Option Kind :=
  if s = "BET" then some Kind.BET
  else if s = "BEER" then some Kind.BEER
  else if s = "TRANSFER" then some Kind.TRANSFER
  else none

/-- ASCII digit test (the decimal fragment accepted by `int`/`Decimal`). -/
def isDigitChar (c : Char) : Bool := 48 ≤ c.toNat && c.toNat ≤ 57

def parseNatGo : Nat → List Char → Option Nat
  | acc, [] => some acc
  | acc, c :: cs => if isDigitChar c then parseNatGo (acc * 10 + (c.toNat - 48)) cs else none

/-- Parse a nonempty all-digit character list. -/
def parseNatDigits : List Char → Option Nat
  | [] => none
  | c :: cs => if isDigitChar c then parseNatGo (c.toNat - 48) cs else none

/-- Partial inverse of `isoformat` (abstracting `datetime.fromisoformat`,
which fails on malformed text). -/
def parseIso (s : String) : Option Int :=
  if s.toList.headD ' ' = '-' then (parseNatDigits s.toList.tail).map (fun n => -(n : Int))
  else (parseNatDigits s.toList).map (fun n => (n : Int))

def splitAtDot : List Char → List Char × Option (List Char)
  | [] => ([], none)
  | c :: r =>
    if c = '.' then ([], some r)
    else
      let p := splitAtDot r
      (c :: p.1, p.2)

/-- `Decimal(s).quantize(CENT)` of the source on plain decimal literals:
optional surrounding whitespace and sign, digits with at most one decimal
point (at least one digit overall), quantized to cents with half-up
rounding, ties away from zero.  (Exponent and special forms of `Decimal`
are outside the fragment the repository writes or reads back.) -/
def parseDec2Aux : List Char → Option Int
  | [] => none
  | c :: cs =>
    let body := if c = '-' ∨ c = '+' then cs else c :: cs
    let p := splitAtDot body
    let ip := p.1
    let fp := (p.2).getD []
    if ip.all isDigitChar && fp.all isDigitChar && !(ip.isEmpty && fp.isEmpty) then
      let ipVal := (parseNatGo 0 ip).getD 0
      let d1 := (fp.headD '0').toNat - 48
      let d2 := ((fp.drop 1).headD '0').toNat - 48
      let rest := fp.drop 2
      let restVal := (parseNatGo 0 rest).getD 0
      let up : Nat := if 0 < rest.length && 10 ^ rest.length ≤ 2 * restVal then 1 else 0
      let mag : Int := Int.ofNat (ipVal * 100 + d1 * 10 + d2 + up)
      some (if c = '-' then -mag else mag)
    else none

def parseDec2 (s : String) : Option Int := parseDec2Aux (pyStrip s).toList

/-- Strip the leading `#` comment lines of an uploaded CSV, remembering the
last successfully parsed `# last_reset=` value (parse failures keep the
previous value, an empty value is skipped). -/
def afterFirstEq : List Char → List Char
  | [] => []
  | c :: r => if c = '=' then r else afterFirstEq r

def stripHash : List String → Option Int → Option Int × List String
  | [], st => (st, [])
  | l :: rest, st =>
    if strStartsWith l "#" then
      let st2 :=
        if strStartsWith (strToLower l) "# last_reset=" then
          let val := pyStrip (String.mk (afterFirstEq l.toList))
          if val = "" then st
          else match parseIso val with
            | some d => some d
            | none => st
        else st
      stripHash rest st2
    else (st, l :: rest)

/-- The case-insensitive header set check of `handle_upload`: the set of
lowercased header names must equal the required 8-name set. -/
def headerMatches (hdr : List String) : Bool :=
  let low := hdr.map strToLower
  csvHeader.all (fun r => low.contains r) && low.all (fun h => csvHeader.contains h)

/-- Last-occurrence lookup, matching how `dict(zip(fieldnames, row))`
followed by lowercasing the keys resolves duplicate column names. -/
def lookupLast : List (String × String) → String → Option String
  | [], _ => none
  | (k2, v) :: rest, k =>
    match lookupLast rest k with
    | some v2 => some v2
    | none => if k2 = k then some v else none

/-- Conversion of one CSV row of `handle_upload` into a `Transaction`.  A row
longer than the header makes the `k.lower()` comprehension raise on the
`None` rest-key (aborting the import); a shorter row is padded with the
empty-string rest-value.  An empty timestamp field falls back to `now`;
empty decimal fields fall back to `0.00`. -/
def parseRow (hdr : List String) (now : Int) (row : List String) : Option Transaction :=
  if hdr.length < row.length then none
  else
    let padded := row ++ List.replicate (hdr.length - row.length) ""
    let kvs := (hdr.map strToLower).zip padded
    do
      let tsS ← lookupLast kvs "timestamp"
      let kindS ← lookupLast kvs "kind"
      let deltaS ← lookupLast kvs "delta"
      let losersS ← lookupLast kvs "losers"
      let payerS ← lookupLast kvs "payer"
      let recvS ← lookupLast kvs "receiver"
      let tamtS ← lookupLast kvs "transfer_amount"
      let commentS ← lookupLast kvs "comment"
      let ts ← if tsS = "" then some now else parseIso tsS
      let kind ← parseKind kindS
      let delta ← parseDec2 (if deltaS = "" then "0.00" else deltaS)
      let tamt ← parseDec2 (if tamtS = "" then "0.00" else tamtS)
      some { timestamp := ts, kind := kind, losers := losersS, comment := commentS,
             delta := delta, payer := payerS, receiver := recvS, transfer_amount := tamt }

/-- The parsing pipeline of `handle_upload`: strip comment lines, require a
nonempty remainder, read the header, check its column set, convert every
non-blank row; `none` is any of the abort paths (in the source: an early
`return` or a caught exception), in which case nothing is mutated. -/
def importParse (text : String) (now : Int) : Option (Option Int × List Transaction) :=
  let sh := stripHash (splitlines text) none
  let rest := sh.2
  if rest.isEmpty then none
  else
    match runLines none rest with
    | [] => none
    | hdr :: rawRows =>
      if headerMatches hdr then
        ((rawRows.filter (fun r => !r.isEmpty)).mapM (parseRow hdr now)).map
          (fun hist => (sh.1, hist))
      else none

/-- `handle_upload` of the source: on success the whole ledger is replaced —
history overwritten, balance recomputed from the new history, `last_reset`
taken from the file; on any failure the pot is untouched. -/
def handle_upload (text : String) (now : Int) (p : Pot) : Pot :=
  match importParse text now with
  | none => p
  | some (lr, hist) => { history := hist, balance := recalcTotal hist, last_reset := lr }

/-! ### Basic fold lemmas -/

theorem recalcTotal_append (h : List Transaction) (t : Transaction) :
    recalcTotal (h ++ [t]) =
      recalcTotal h + (if t.kind = Kind.BET ∨ t.kind = Kind.BEER then t.delta else 0) := by
  unfold recalcTotal
  rw [List.foldl_append]
  simp only [List.foldl_cons, List.foldl_nil]
  split <;> omega

theorem person_totals_append (p : Pot) (t : Transaction) :
    Pot.person_totals { p with history := p.history ++ [t] } =
      person_step p.person_totals t := by
  unfold Pot.person_totals
  rw [List.foldl_append]
  rfl

/-! ### C5: record_bet -/

/-- C5: `record_bet` fails with the invalid-amount error on a non-positive
stake, leaving the pot unchanged; otherwise it appends exactly one `Bet`
transaction whose delta is the stake times the number of wrong participants,
lists each wrong participant in the losers text (with the "beide richtig"
marker and zero deposit when both were right), and increases the cached
balance by exactly the deposit. -/
theorem add_bet_spec (p : Pot) (sr vr : Bool) (comment : String) (stake now : Int) :
    (stake ≤ 0 → p.add_bet sr vr comment stake now = ("Fehler: Einsatz muss > 0 sein.", p)) ∧
    (0 < stake →
      p.add_bet sr vr comment stake now =
        (let wrong : Int := (if sr then 0 else 1) + (if vr then 0 else 1)
         let lt : String :=
           if sr && vr then "beide richtig"
           else if sr then "Sevi verliert"
           else if vr then "Sven verliert"
           else "Sven verliert, Sevi verliert"
         ("Wette verbucht: " ++ lt ++ ". Neuer Saldo: " ++ chf (p.balance + stake * wrong),
          { p with
            balance := p.balance + stake * wrong,
            history := p.history ++
              [{ timestamp := now, kind := Kind.BET, losers := lt,
                 comment := pyStrip comment, delta := stake * wrong }] }))) := by
  constructor
  · intro h
    simp [Pot.add_bet, h]
  · intro h
    have h' : ¬ stake ≤ 0 := by omega
    have e1 : stake + stake = stake * 2 := by ring
    have e2 : stake = stake * 1 := by ring
    rcases sr <;> rcases vr <;>
      simp [Pot.add_bet, h', String.intercalate, e1.symm, mul_one, mul_zero] <;>
      constructor <;> rfl

/-- Witness for C5: the success branch evaluated at a concrete bet. -/
theorem add_bet_spec_witness :
    Pot.add_bet {} false true "" 5 1 =
      (let wrong : Int := (if false then 0 else 1) + (if true then 0 else 1)
       let lt : String :=
         if false && true then "beide richtig"
         else if false then "Sevi verliert"
         else if true then "Sven verliert"
         else "Sven verliert, Sevi verliert"
       ("Wette verbucht: " ++ lt ++ ". Neuer Saldo: " ++ chf ((Pot.balance {}) + 5 * wrong),
        { ({} : Pot) with
          balance := (Pot.balance {}) + 5 * wrong,
          history := (Pot.history {}) ++
            [{ timestamp := 1, kind := Kind.BET, losers := lt,
               comment := pyStrip "", delta := 5 * wrong }] })) :=
  (add_bet_spec {} false true "" 5 1).2 (by norm_num)

/-! ### C4: record_purchase -/

/-- C4: `record_purchase` fails with the invalid-amount error when the
amount is non-positive and with the insufficient-funds error when the
amount exceeds the pot balance, in both cases leaving the pot unchanged;
on success it appends exactly one `Purchase` (BEER) transaction with
`delta = -amount`, decrements the balance by the amount, and the resulting
balance is never negative. -/
theorem pay_beer_spec (p : Pot) (amount : Int) (payer comment : String) (now : Int) :
    (amount ≤ 0 → p.pay_beer amount payer comment now = ("Fehler: Betrag muss > 0 sein.", p)) ∧
    (0 < amount → p.balance < amount →
      p.pay_beer amount payer comment now =
        ("Fehler: Betrag " ++ chf amount ++ " übersteigt den Saldo " ++ chf p.balance ++ ".",
          p)) ∧
    (0 < amount → amount ≤ p.balance →
      p.pay_beer amount payer comment now =
        ("Bezahlt: " ++ chf amount ++ " für Bier (Zahler: " ++ payer ++ "). Neuer Saldo: " ++
            chf (p.balance - amount),
         { p with
           balance := p.balance - amount,
           history := p.history ++
             [{ timestamp := now, kind := Kind.BEER, losers := "Bier bezahlt",
                comment := pyStrip comment, delta := -amount, payer := payer }] }) ∧
      0 ≤ (p.pay_beer amount payer comment now).2.balance) := by
  refine ⟨fun h => ?_, fun h1 h2 => ?_, fun h1 h2 => ?_⟩
  · simp [Pot.pay_beer, h]
  · rw [Pot.pay_beer, if_neg (by omega), if_pos h2]
  · have e : p.pay_beer amount payer comment now =
        ("Bezahlt: " ++ chf amount ++ " für Bier (Zahler: " ++ payer ++ "). Neuer Saldo: " ++
            chf (p.balance - amount),
         { p with
           balance := p.balance - amount,
           history := p.history ++
             [{ timestamp := now, kind := Kind.BEER, losers := "Bier bezahlt",
                comment := pyStrip comment, delta := -amount, payer := payer }] }) := by
      rw [Pot.pay_beer, if_neg (by omega), if_neg (by omega)]
    refine ⟨e, ?_⟩
    rw [e]
    simp
    omega

/-- Witness for C4: the success branch of a purchase of 3.00 against a
balance of 5.00. -/
theorem pay_beer_spec_witness :
    (Pot.pay_beer { balance := 500, history := [], last_reset := none } 300 "Sven" "" 2 =
      ("Bezahlt: " ++ chf 300 ++ " für Bier (Zahler: " ++ "Sven" ++ "). Neuer Saldo: " ++
          chf ((500 : Int) - 300),
       { balance := (500 : Int) - 300,
         history := ([] : List Transaction) ++
           [{ timestamp := 2, kind := Kind.BEER, losers := "Bier bezahlt",
              comment := pyStrip "", delta := -300, payer := "Sven" }],
         last_reset := none }) ∧
      0 ≤ (Pot.pay_beer { balance := 500, history := [], last_reset := none }
        300 "Sven" "" 2).2.balance) :=
  (pay_beer_spec { balance := 500, history := [], last_reset := none } 300 "Sven" "" 2).2.2
    (by norm_num) (by norm_num)

/-! ### C3: record_transfer -/

/-- C3: for participants Sven and Sevi, `record_transfer` fails with the
invalid-amount error when the amount is non-positive, with the same-party
error when payer equals receiver, and with the insufficient-funds error when
the amount exceeds the payer component of `person_totals` computed before
the transfer — leaving the pot unchanged on each failure; on success it
appends exactly one `Transfer` transaction with `delta = 0`, leaves the
balance unchanged, and moves the person totals by exactly a debit of the
amount to the payer and an equal credit to the receiver. -/
theorem transfer_spec (p : Pot) (amount : Int) (payer receiver comment : String) (now : Int)
    (hp : payer = "Sven" ∨ payer = "Sevi") (hr : receiver = "Sven" ∨ receiver = "Sevi") :
    (amount ≤ 0 →
      p.transfer amount payer receiver comment now = ("Fehler: Betrag muss > 0 sein.", p)) ∧
    (0 < amount → payer = receiver →
      p.transfer amount payer receiver comment now =
        ("Fehler: Zahler und Empfänger dürfen nicht identisch sein.", p)) ∧
    (0 < amount → payer ≠ receiver →
      (if payer = "Sven" then p.person_totals.1 else p.person_totals.2) < amount →
      p.transfer amount payer receiver comment now =
        ("Fehler: " ++ payer ++ " hat nur " ++
            chf (if payer = "Sven" then p.person_totals.1 else p.person_totals.2) ++
            " verfügbar für Transfer.", p)) ∧
    (0 < amount → payer ≠ receiver →
      amount ≤ (if payer = "Sven" then p.person_totals.1 else p.person_totals.2) →
      p.transfer amount payer receiver comment now =
        ("Transfer verbucht: " ++ payer ++ " → " ++ receiver ++ " " ++ chf amount ++
            " (Pot unverändert: " ++ chf p.balance ++ ")",
         { p with
           history := p.history ++
             [{ timestamp := now, kind := Kind.TRANSFER, losers := "", comment := comment,
                delta := 0, payer := payer, receiver := receiver,
                transfer_amount := amount }] }) ∧
      (p.transfer amount payer receiver comment now).2.balance = p.balance ∧
      (p.transfer amount payer receiver comment now).2.person_totals =
        (p.person_totals.1 - (if payer = "Sven" then amount else 0) +
           (if receiver = "Sven" then amount else 0),
         p.person_totals.2 - (if payer = "Sevi" then amount else 0) +
           (if receiver = "Sevi" then amount else 0))) := by
  refine ⟨fun h => ?_, fun h1 h2 => ?_, fun h1 h2 h3 => ?_, fun h1 h2 h3 => ?_⟩
  · simp [Pot.transfer, h]
  · rw [Pot.transfer, if_neg (by omega), if_pos h2]
  · rw [Pot.transfer, if_neg (by omega), if_neg h2]
    simp only
    rw [if_pos h3]
  · have e : p.transfer amount payer receiver comment now =
        ("Transfer verbucht: " ++ payer ++ " → " ++ receiver ++ " " ++ chf amount ++
            " (Pot unverändert: " ++ chf p.balance ++ ")",
         { p with
           history := p.history ++
             [{ timestamp := now, kind := Kind.TRANSFER, losers := "", comment := comment,
                delta := 0, payer := payer, receiver := receiver,
                transfer_amount := amount }] }) := by
      rw [Pot.transfer, if_neg (by omega), if_neg h2]
      simp only
      rw [if_neg (by omega)]
    refine ⟨e, by rw [e], ?_⟩
    rw [e]
    simp only
    rw [person_totals_append]
    rcases hp with rfl | rfl <;> rcases hr with rfl | rfl
    · exact absurd rfl h2
    · simp [person_step]
    · simp [person_step]
    · exact absurd rfl h2

/-- Witness for C3: the success branch of a 2.00 transfer from Sven
(total 5.00) to Sevi. -/
theorem transfer_spec_witness :
    (Pot.transfer
        { balance := 500,
          history :=
            [{ timestamp := 1, kind := Kind.BET, losers := "Sven verliert",
               comment := "", delta := 500 }],
          last_reset := none }
        200 "Sven" "Sevi" "Ausgleich" 3 =
      ("Transfer verbucht: " ++ "Sven" ++ " → " ++ "Sevi" ++ " " ++ chf 200 ++
          " (Pot unverändert: " ++
          chf (Pot.balance
            { balance := 500,
              history :=
                [{ timestamp := 1, kind := Kind.BET, losers := "Sven verliert",
                   comment := "", delta := 500 }],
              last_reset := none }) ++ ")",
       { balance := 500,
         history :=
           [{ timestamp := 1, kind := Kind.BET, losers := "Sven verliert",
              comment := "", delta := 500 },
            { timestamp := 3, kind := Kind.TRANSFER, losers := "", comment := "Ausgleich",
              delta := 0, payer := "Sven", receiver := "Sevi", transfer_amount := 200 }],
         last_reset := none }) ∧
      (Pot.transfer
        { balance := 500,
          history :=
            [{ timestamp := 1, kind := Kind.BET, losers := "Sven verliert",
               comment := "", delta := 500 }],
          last_reset := none }
        200 "Sven" "Sevi" "Ausgleich" 3).2.balance =
        Pot.balance
          { balance := 500,
            history :=
              [{ timestamp := 1, kind := Kind.BET, losers := "Sven verliert",
                 comment := "", delta := 500 }],
            last_reset := none } ∧
      (Pot.transfer
        { balance := 500,
          history :=
            [{ timestamp := 1, kind := Kind.BET, losers := "Sven verliert",
               comment := "", delta := 500 }],
          last_reset := none }
        200 "Sven" "Sevi" "Ausgleich" 3).2.person_totals =
        ((Pot.person_totals
            { balance := 500,
              history :=
                [{ timestamp := 1, kind := Kind.BET, losers := "Sven verliert",
                   comment := "", delta := 500 }],
              last_reset := none }).1 - (if "Sven" = "Sven" then 200 else 0) +
           (if "Sevi" = "Sven" then 200 else 0),
         (Pot.person_totals
            { balance := 500,
              history :=
                [{ timestamp := 1, kind := Kind.BET, losers := "Sven verliert",
                   comment := "", delta := 500 }],
              last_reset := none }).2 - (if "Sven" = "Sevi" then 200 else 0) +
           (if "Sevi" = "Sevi" then 200 else 0))) := by
  have h := (transfer_spec
    { balance := 500,
      history :=
        [{ timestamp := 1, kind := Kind.BET, losers := "Sven verliert",
           comment := "", delta := 500 }],
      last_reset := none }
    200 "Sven" "Sevi" "Ausgleich" 3 (Or.inl rfl) (Or.inr rfl)).2.2.2
    (by norm_num) (by decide) (by decide)
  exact ⟨by rw [h.1]; rfl, h.2.1, h.2.2⟩

/-! ### C9: transfer with a payer or receiver outside the two participants -/

/-- C9: `Pot.transfer` does not validate participant names — for any payer
other than exactly "Sven" the insufficient-funds check compares the amount
against the Sevi component of the person totals, and a transfer whose payer
is neither participant passes validation (when the amount is within the Sevi
total) yet debits nobody: the totals only move by the receiver credit, and
an unknown receiver receives no credit either. -/
theorem transfer_unknown_name (p : Pot) (amount : Int) (payer receiver comment : String)
    (now : Int) (hp : payer ≠ "Sven") :
    (0 < amount → payer ≠ receiver → p.person_totals.2 < amount →
      p.transfer amount payer receiver comment now =
        ("Fehler: " ++ payer ++ " hat nur " ++ chf p.person_totals.2 ++
          " verfügbar für Transfer.", p)) ∧
    (0 < amount → payer ≠ receiver → amount ≤ p.person_totals.2 →
      (p.transfer amount payer receiver comment now).2 =
        { p with
          history := p.history ++
            [{ timestamp := now, kind := Kind.TRANSFER, losers := "", comment := comment,
               delta := 0, payer := payer, receiver := receiver,
               transfer_amount := amount }] }) ∧
    (payer ≠ "Sevi" → 0 < amount → payer ≠ receiver → amount ≤ p.person_totals.2 →
      (p.transfer amount payer receiver comment now).2.person_totals =
        (p.person_totals.1 + (if receiver = "Sven" then amount else 0),
         p.person_totals.2 + (if receiver = "Sevi" then amount else 0))) := by
  refine ⟨fun h1 h2 h3 => ?_, fun h1 h2 h3 => ?_, fun hps h1 h2 h3 => ?_⟩
  · rw [Pot.transfer, if_neg (by omega), if_neg h2]
    simp only
    rw [if_neg hp, if_pos h3]
  · rw [Pot.transfer, if_neg (by omega), if_neg h2]
    simp only
    rw [if_neg hp, if_neg (by omega)]
  · have e : (p.transfer amount payer receiver comment now).2 =
        { p with
          history := p.history ++
            [{ timestamp := now, kind := Kind.TRANSFER, losers := "", comment := comment,
               delta := 0, payer := payer, receiver := receiver,
               transfer_amount := amount }] } := by
      rw [Pot.transfer, if_neg (by omega), if_neg h2]
      simp only
      rw [if_neg hp, if_neg (by omega)]
    rw [e, person_totals_append]
    by_cases hr1 : receiver = "Sven"
    · simp [person_step, hp, hps, hr1]
    · by_cases hr2 : receiver = "Sevi" <;> simp [person_step, hp, hps, hr1, hr2]

/-- Witness for C9: the totals after a successful transfer whose payer
"Bob" is neither participant (validated against the Sevi total of 5.00). -/
theorem transfer_unknown_name_witness :
    (Pot.transfer
      { balance := 0,
        history :=
          [{ timestamp := 1, kind := Kind.BET, losers := "Sevi verliert",
             comment := "", delta := 500 }],
        last_reset := none }
      200 "Bob" "Sevi" "x" 3).2.person_totals =
      ((Pot.person_totals
          { balance := 0,
            history :=
              [{ timestamp := 1, kind := Kind.BET, losers := "Sevi verliert",
                 comment := "", delta := 500 }],
            last_reset := none }).1 + (if "Sevi" = "Sven" then 200 else 0),
       (Pot.person_totals
          { balance := 0,
            history :=
              [{ timestamp := 1, kind := Kind.BET, losers := "Sevi verliert",
                 comment := "", delta := 500 }],
            last_reset := none }).2 + (if "Sevi" = "Sevi" then 200 else 0)) :=
  (transfer_unknown_name
    { balance := 0,
      history :=
        [{ timestamp := 1, kind := Kind.BET, losers := "Sevi verliert",
           comment := "", delta := 500 }],
      last_reset := none }
    200 "Bob" "Sevi" "x" 3 (by decide)).2.2 (by decide) (by norm_num) (by decide) (by decide)

/-! ### C2: person_totals matches the specified reduction -/

theorem person_step_eq_spec (a : Int × Int) (t : Transaction)
    (h : t.kind = Kind.BEER → t.delta < 0) :
    person_step a t = spec_person_step a t := by
  rcases t with ⟨ts, k, losers, comment, delta, payer, receiver, tamt⟩
  cases k
  · by_cases hd : 0 < delta <;> simp [person_step, spec_person_step, hd]
  · have hd : delta < 0 := h rfl
    simp only [person_step, spec_person_step]
    norm_num [hd]
    split_ifs <;> simp [sub_neg_eq_add]
  · simp [person_step, spec_person_step]

theorem foldl_person_eq_spec (l : List Transaction)
    (h : ∀ t ∈ l, t.kind = Kind.BEER → t.delta < 0) :
    ∀ a : Int × Int, l.foldl person_step a = l.foldl spec_person_step a := by
  induction l with
  | nil => intro a; rfl
  | cons t l ih =>
    intro a
    simp only [List.foldl_cons]
    rw [person_step_eq_spec a t (h t (List.mem_cons_self t l)),
      ih (fun u hu => h u (List.mem_cons_of_mem t hu))]

/-- C2: on every history whose `Purchase` entries carry the negative delta
the recording operation gives them, `person_totals` is exactly the fold, in
history order, described by the specification: a positive-deposit `Bet`
splits the deposit evenly over the marked losers (full deposit for one
loser, half-up-quantized halves for two), a zero-deposit `Bet` contributes
nothing, a `Purchase` debits its payer by the purchase amount, and a
`Transfer` debits the payer and credits the receiver; the result is the
(Sven, Sevi) pair. -/
theorem person_totals_matches_spec (p : Pot)
    (h : ∀ t ∈ p.history, t.kind = Kind.BEER → t.delta < 0) :
    p.person_totals = spec_person_totals p :=
  foldl_person_eq_spec p.history h (0, 0)

/-- Witness for C2 on a three-entry history containing all three kinds. -/
theorem person_totals_matches_spec_witness :
    Pot.person_totals
      { balance := 200,
        history :=
          [{ timestamp := 1, kind := Kind.BET, losers := "Sven verliert",
             comment := "", delta := 500 },
           { timestamp := 2, kind := Kind.BEER, losers := "Bier bezahlt",
             comment := "", delta := -300, payer := "Sven" },
           { timestamp := 3, kind := Kind.TRANSFER, losers := "", comment := "",
             delta := 0, payer := "Sven", receiver := "Sevi", transfer_amount := 200 }],
        last_reset := none } =
      spec_person_totals
        { balance := 200,
          history :=
            [{ timestamp := 1, kind := Kind.BET, losers := "Sven verliert",
               comment := "", delta := 500 },
             { timestamp := 2, kind := Kind.BEER, losers := "Bier bezahlt",
               comment := "", delta := -300, payer := "Sven" },
             { timestamp := 3, kind := Kind.TRANSFER, losers := "", comment := "",
               delta := 0, payer := "Sven", receiver := "Sevi", transfer_amount := 200 }],
          last_reset := none } :=
  person_totals_matches_spec
    { balance := 200,
      history :=
        [{ timestamp := 1, kind := Kind.BET, losers := "Sven verliert",
           comment := "", delta := 500 },
         { timestamp := 2, kind := Kind.BEER, losers := "Bier bezahlt",
           comment := "", delta := -300, payer := "Sven" },
         { timestamp := 3, kind := Kind.TRANSFER, losers := "", comment := "",
           delta := 0, payer := "Sven", receiver := "Sevi", transfer_amount := 200 }],
      last_reset := none }
    (by decide)

/-! ### C10: the delta-sign filter of person_totals -/

/-- C10: `person_totals` ignores a `BET` entry unless its delta is strictly
positive and its losers text contains at least one of the two loser markers,
and ignores a `BEER` entry unless its delta is strictly negative — while
`recalc_balance` still adds the delta of every `BET`/`BEER` entry to the pot
balance. -/
theorem person_totals_sign_filter (p : Pot) (t : Transaction) :
    (t.kind = Kind.BET →
      (t.delta ≤ 0 ∨ (strContains t.losers "Sven verliert" = false ∧
        strContains t.losers "Sevi verliert" = false)) →
      Pot.person_totals { p with history := p.history ++ [t] } = p.person_totals) ∧
    (t.kind = Kind.BEER → 0 ≤ t.delta →
      Pot.person_totals { p with history := p.history ++ [t] } = p.person_totals) ∧
    ((t.kind = Kind.BET ∨ t.kind = Kind.BEER) →
      recalcTotal (p.history ++ [t]) = recalcTotal p.history + t.delta) := by
  refine ⟨fun hk hcond => ?_, fun hk hd => ?_, fun hk => ?_⟩
  · rw [person_totals_append]
    rcases hcond with hd | ⟨h1, h2⟩
    · simp [person_step, hk, show ¬ (0 < t.delta) from by omega]
    · simp [person_step, hk, h1, h2]
  · rw [person_totals_append]
    simp [person_step, hk, show ¬ (t.delta < 0) from by omega]
  · rw [recalcTotal_append, if_pos hk]

/-- Witness for C10: a positive-delta BEER entry (as an import could create)
is ignored by the totals while still entering the recomputed balance. -/
theorem person_totals_sign_filter_witness :
    Pot.person_totals
      { balance := 0,
        history :=
          [{ timestamp := 1, kind := Kind.BET, losers := "Sven verliert",
             comment := "", delta := 500 }] ++
          [{ timestamp := 2, kind := Kind.BEER, losers := "Bier bezahlt",
             comment := "", delta := 700, payer := "Sven" }],
        last_reset := none } =
      Pot.person_totals
        { balance := 0,
          history :=
            [{ timestamp := 1, kind := Kind.BET, losers := "Sven verliert",
               comment := "", delta := 500 }],
          last_reset := none } ∧
    recalcTotal
      ([{ timestamp := 1, kind := Kind.BET, losers := "Sven verliert",
          comment := "", delta := 500 }] ++
        [{ timestamp := 2, kind := Kind.BEER, losers := "Bier bezahlt",
           comment := "", delta := 700, payer := "Sven" }]) =
      recalcTotal
        [{ timestamp := 1, kind := Kind.BET, losers := "Sven verliert",
           comment := "", delta := 500 }] + 700 := by
  have h := person_totals_sign_filter
    { balance := 0,
      history :=
        [{ timestamp := 1, kind := Kind.BET, losers := "Sven verliert",
           comment := "", delta := 500 }],
      last_reset := none }
    { timestamp := 2, kind := Kind.BEER, losers := "Bier bezahlt",
      comment := "", delta := 700, payer := "Sven" }
  exact ⟨h.2.1 rfl (by norm_num), h.2.2 (Or.inr rfl)⟩

/-! ### recalcTotal under cons and set -/

theorem recalcTotal_go (l : List Transaction) :
    ∀ a : Int,
      l.foldl (fun acc t => if t.kind = Kind.BET ∨ t.kind = Kind.BEER then acc + t.delta else acc)
        a = a + recalcTotal l := by
  induction l with
  | nil => intro a; simp [recalcTotal]
  | cons t l ih =>
    intro a
    rw [recalcTotal, List.foldl_cons, List.foldl_cons, ih, ih]
    by_cases hc : t.kind = Kind.BET ∨ t.kind = Kind.BEER
    · simp only [if_pos hc]
      omega
    · simp only [if_neg hc]
      omega

theorem recalcTotal_cons (t : Transaction) (l : List Transaction) :
    recalcTotal (t :: l) =
      (if t.kind = Kind.BET ∨ t.kind = Kind.BEER then t.delta else 0) + recalcTotal l := by
  rw [recalcTotal, List.foldl_cons, recalcTotal_go]
  by_cases hc : t.kind = Kind.BET ∨ t.kind = Kind.BEER <;> simp [hc]

theorem recalcTotal_set (h : List Transaction) (idx : Nat) (t2 : Transaction)
    (hw : ∀ t, h[idx]? = some t → t2.kind = t.kind ∧ t2.delta = t.delta) :
    recalcTotal (h.set idx t2) = recalcTotal h := by
  induction h generalizing idx with
  | nil => rfl
  | cons hd tl ih =>
    cases idx with
    | zero =>
      obtain ⟨hk, hd'⟩ := hw hd (by simp)
      rw [List.set_cons_zero, recalcTotal_cons, recalcTotal_cons, hk, hd']
    | succ n =>
      rw [List.set_cons_succ, recalcTotal_cons, recalcTotal_cons,
        ih n (fun t ht => hw t (by simpa using ht))]

/-! ### Case shapes of the edit and import operations -/

theorem edit_bet_cases (p : Pot) (idx : Nat) (a b : Bool) (sRaw : Option Int) (c : String) :
    (edit_bet p idx a b sRaw c).2 = p ∨
    ∃ h', (edit_bet p idx a b sRaw c).2 = { p with history := h', balance := recalcTotal h' } := by
  unfold edit_bet applyBetEdit
  repeat' split
  all_goals first
    | (left; rfl)
    | (right; exact ⟨_, rfl⟩)

theorem edit_beer_cases (p : Pot) (idx : Nat) (paySel : String) (aRaw : Option Int)
    (c : String) :
    (edit_beer p idx paySel aRaw c).2 = p ∨
    ∃ h', (edit_beer p idx paySel aRaw c).2 =
      { p with history := h', balance := recalcTotal h' } := by
  unfold edit_beer
  repeat' split
  all_goals first
    | (left; rfl)
    | (right; exact ⟨_, rfl⟩)

theorem edit_transfer_cases (p : Pot) (idx : Nat) (paySel : String) (aRaw : Option Int)
    (c : String) :
    (edit_transfer p idx paySel aRaw c).2 = p ∨
    ∃ t t2, p.history[idx]? = some t ∧
      (edit_transfer p idx paySel aRaw c).2 = { p with history := p.history.set idx t2 } ∧
      t2.kind = t.kind ∧ t2.delta = t.delta := by
  unfold edit_transfer
  split
  · left; rfl
  · rename_i t hq
    split
    · left; rfl
    · split
      · left; rfl
      · split
        · left; rfl
        · dsimp only
          split <;> split
          all_goals first
            | (left; rfl)
            | (right; exact ⟨t, _, hq, rfl, rfl, rfl⟩)

theorem transfer_result_cases (p : Pot) (amount : Int) (payer receiver comment : String)
    (now : Int) :
    (p.transfer amount payer receiver comment now).2 = p ∨
    (p.transfer amount payer receiver comment now).2 =
      { p with
        history := p.history ++
          [{ timestamp := now, kind := Kind.TRANSFER, losers := "", comment := comment,
             delta := 0, payer := payer, receiver := receiver,
             transfer_amount := amount }] } := by
  unfold Pot.transfer
  split
  · left; rfl
  · split
    · left; rfl
    · dsimp only
      repeat' split
      all_goals first | (left; rfl) | (right; rfl)

/-! ### C1: the cached-balance invariant -/

/-- C1: every operation that can change the ledger preserves the invariant
that the cached balance equals the sum of delta over the `Bet` and
`Purchase` entries of the history (transfers excluded) — recording a bet, a
purchase or a transfer, the three edit dialogs, deleting an entry, reset,
and a CSV import; and a load from persistence establishes the invariant
unconditionally, ignoring the stored balance value entirely. -/
theorem cached_balance_invariant (p : Pot) (sr vr : Bool) (c1 c2 c3 c4 c5 text : String)
    (stake amt tamt now b : Int) (payer receiver paySel : String) (idx : Nat)
    (svenL seviL : Bool) (stakeRaw amtRaw : Option Int) (s : StoredState) :
    (balanceInv p → balanceInv (p.add_bet sr vr c1 stake now).2) ∧
    (balanceInv p → balanceInv (p.pay_beer amt payer c2 now).2) ∧
    (balanceInv p → balanceInv (p.transfer tamt payer receiver c3 now).2) ∧
    (balanceInv p → balanceInv (edit_bet p idx svenL seviL stakeRaw c4).2) ∧
    (balanceInv p → balanceInv (edit_beer p idx paySel amtRaw c4).2) ∧
    (balanceInv p → balanceInv (edit_transfer p idx paySel amtRaw c5).2) ∧
    (balanceInv p → balanceInv (delete_txn p idx)) ∧
    balanceInv (p.reset now) ∧
    (balanceInv p → balanceInv (handle_upload text now p)) ∧
    balanceInv (load_state s) ∧
    load_state { s with balance := b } = load_state s := by
  refine ⟨fun hI => ?_, fun hI => ?_, fun hI => ?_, fun hI => ?_, fun hI => ?_, fun hI => ?_,
    fun hI => ?_, ?_, fun hI => ?_, ?_, ?_⟩
  · unfold Pot.add_bet
    split
    · exact hI
    · unfold balanceInv at *
      simp [recalcTotal_append]
      omega
  · unfold Pot.pay_beer
    split
    · exact hI
    · split
      · exact hI
      · unfold balanceInv at *
        simp [recalcTotal_append]
        omega
  · rcases transfer_result_cases p tamt payer receiver c3 now with e | e <;> rw [e]
    · exact hI
    · unfold balanceInv at *
      simp [recalcTotal_append]
      omega
  · rcases edit_bet_cases p idx svenL seviL stakeRaw c4 with h | ⟨h', e⟩
    · rw [h]; exact hI
    · rw [e]; rfl
  · rcases edit_beer_cases p idx paySel amtRaw c4 with h | ⟨h', e⟩
    · rw [h]; exact hI
    · rw [e]; rfl
  · rcases edit_transfer_cases p idx paySel amtRaw c5 with h | ⟨t, t2, hq, e, hk, hd⟩
    · rw [h]; exact hI
    · rw [e]
      unfold balanceInv at *
      simp only
      rw [recalcTotal_set p.history idx t2
        (fun u hu => by rw [hq] at hu; cases hu; exact ⟨hk, hd⟩)]
      exact hI
  · unfold delete_txn
    split
    · rfl
    · exact hI
  · rfl
  · unfold handle_upload
    split
    · exact hI
    · rfl
  · rfl
  · rfl

/-- Witness for C1: the invariant is preserved through a concrete bet on an
empty pot, and loading a stored state with a corrupted balance ignores it. -/
theorem cached_balance_invariant_witness :
    balanceInv (Pot.add_bet {} false true "" 500 1).2 ∧
    load_state
      { balance := 9999,
        history :=
          [{ timestamp := 1, kind := Kind.BET, losers := "Sven verliert",
             comment := "", delta := 500 }],
        last_reset := none } =
    load_state
      { balance := 0,
        history :=
          [{ timestamp := 1, kind := Kind.BET, losers := "Sven verliert",
             comment := "", delta := 500 }],
        last_reset := none } := by
  have h := cached_balance_invariant {} false true "" "" "" "" "" "" 500 0 0 1 0 "" "" "" 0
    false false none none
    { balance := 0,
      history :=
        [{ timestamp := 1, kind := Kind.BET, losers := "Sven verliert",
           comment := "", delta := 500 }],
      last_reset := none }
  have h2 := cached_balance_invariant {} false true "" "" "" "" "" "" 500 0 0 1 9999 "" "" "" 0
    false false none none
    { balance := 0,
      history :=
        [{ timestamp := 1, kind := Kind.BET, losers := "Sven verliert",
           comment := "", delta := 500 }],
      last_reset := none }
  exact ⟨h.1 (by rfl), h2.2.2.2.2.2.2.2.2.2.2⟩

/-! ### C8: edit_transaction -/

/-- C8: each edit dialog fails without mutation on an out-of-range index and
on a kind mismatch; it re-runs the validation of the original recording
operation for its kind — a bet edit with at least one loser requires a
positive stake, a beer edit requires a positive amount, and a transfer edit
requires a positive amount bounded by the payer available total (with the
edited transfer neutralized); and after every successful edit the stored
balance is the full recomputation from the updated history (for the
transfer edit, whose fields cannot change any delta, this holds whenever the
balance was consistent before). -/
theorem edit_transaction_spec (p : Pot) (idx : Nat) (svenL seviL : Bool)
    (stakeRaw amtRaw : Option Int) (paySel cm : String) :
    (p.history.length ≤ idx →
      edit_bet p idx svenL seviL stakeRaw cm = ("Ungültige Auswahl.", p) ∧
      edit_beer p idx paySel amtRaw cm = ("Ungültige Auswahl.", p) ∧
      edit_transfer p idx paySel amtRaw cm = ("Ungültige Auswahl.", p)) ∧
    (∀ t, p.history[idx]? = some t →
      (t.kind ≠ Kind.BET →
        edit_bet p idx svenL seviL stakeRaw cm =
          ("Nur Wetten können hier bearbeitet werden.", p)) ∧
      (t.kind ≠ Kind.BEER →
        edit_beer p idx paySel amtRaw cm =
          ("Nur Bierkäufe können hier bearbeitet werden.", p)) ∧
      (t.kind ≠ Kind.TRANSFER →
        edit_transfer p idx paySel amtRaw cm =
          ("Nur Transfers können hier bearbeitet werden.", p))) ∧
    (∀ t, p.history[idx]? = some t → t.kind = Kind.BET → (svenL || seviL) = true →
      (stakeRaw = none → edit_bet p idx svenL seviL stakeRaw cm = ("Bitte Einsatz eingeben.", p)) ∧
      (∀ st, stakeRaw = some st → st ≤ 0 →
        edit_bet p idx svenL seviL stakeRaw cm = ("Einsatz muss > 0 sein.", p))) ∧
    (∀ t, p.history[idx]? = some t → t.kind = Kind.BEER →
      (amtRaw = none → edit_beer p idx paySel amtRaw cm = ("Bitte Betrag eingeben.", p)) ∧
      (∀ amt, amtRaw = some amt → amt ≤ 0 →
        edit_beer p idx paySel amtRaw cm = ("Betrag muss > 0 sein.", p))) ∧
    (∀ t, p.history[idx]? = some t → t.kind = Kind.TRANSFER →
      (amtRaw = none → edit_transfer p idx paySel amtRaw cm = ("Bitte Betrag eingeben.", p)) ∧
      (∀ amt, amtRaw = some amt → amt ≤ 0 →
        edit_transfer p idx paySel amtRaw cm = ("Betrag muss > 0 sein.", p)) ∧
      (∀ amt, amtRaw = some amt → 0 < amt →
        availEditTransfer p t (if paySel = "" then "Sven" else paySel) < amt →
        (edit_transfer p idx paySel amtRaw cm).2 = p)) ∧
    ((edit_bet p idx svenL seviL stakeRaw cm).1 = "Wette aktualisiert." →
      (edit_bet p idx svenL seviL stakeRaw cm).2.balance =
        recalcTotal (edit_bet p idx svenL seviL stakeRaw cm).2.history) ∧
    ((edit_beer p idx paySel amtRaw cm).1 = "Bier-Eintrag aktualisiert." →
      (edit_beer p idx paySel amtRaw cm).2.balance =
        recalcTotal (edit_beer p idx paySel amtRaw cm).2.history) ∧
    (balanceInv p →
      (edit_transfer p idx paySel amtRaw cm).2.balance =
        recalcTotal (edit_transfer p idx paySel amtRaw cm).2.history) := by
  have hnone : p.history.length ≤ idx → p.history[idx]? = none := by
    intro h
    exact List.getElem?_eq_none h
  refine ⟨fun hout => ?_, fun t ht => ?_, fun t ht hk hl => ?_, fun t ht hk => ?_,
    fun t ht hk => ?_, fun hmsg => ?_, fun hmsg => ?_, fun hI => ?_⟩
  · have e := hnone hout
    exact ⟨by unfold edit_bet; rw [e], by unfold edit_beer; rw [e],
      by unfold edit_transfer; rw [e]⟩
  · refine ⟨fun hk => ?_, fun hk => ?_, fun hk => ?_⟩
    · unfold edit_bet; rw [ht]; simp only [if_pos hk]
    · unfold edit_beer; rw [ht]; simp only [if_pos hk]
    · unfold edit_transfer; rw [ht]; simp only [if_pos hk]
  · have hknot : ¬ t.kind ≠ Kind.BET := by simp [hk]
    have hlen : 0 < ((if svenL then ["Sven verliert"] else []) ++
        (if seviL then ["Sevi verliert"] else [])).length := by
      rcases svenL <;> rcases seviL <;> simp_all
    constructor
    · intro hs
      unfold edit_bet
      rw [ht, hs]
      simp only [if_neg hknot, if_pos hlen]
    · intro st hs hst
      unfold edit_bet
      rw [ht, hs]
      simp only [if_neg hknot, if_pos hlen, if_pos hst]
  · have hknot : ¬ t.kind ≠ Kind.BEER := by simp [hk]
    constructor
    · intro hs
      unfold edit_beer
      rw [ht, hs]
      simp only [if_neg hknot]
    · intro amt hs hamt
      unfold edit_beer
      rw [ht, hs]
      simp only [if_neg hknot, if_pos hamt]
  · have hknot : ¬ t.kind ≠ Kind.TRANSFER := by simp [hk]
    refine ⟨fun hs => ?_, fun amt hs hamt => ?_, fun amt hs hamt havail => ?_⟩
    · unfold edit_transfer
      rw [ht, hs]
      simp only [if_neg hknot]
    · unfold edit_transfer
      rw [ht, hs]
      simp only [if_neg hknot, if_pos hamt]
    · unfold edit_transfer
      rw [ht, hs]
      simp only [if_neg hknot, if_neg (show ¬ amt ≤ 0 from by omega)]
      rw [if_pos havail]
  · revert hmsg
    unfold edit_bet applyBetEdit
    repeat' split
    all_goals intro hmsg
    all_goals first
      | rfl
      | (simp at hmsg)
  · revert hmsg
    unfold edit_beer
    repeat' split
    all_goals intro hmsg
    all_goals first
      | rfl
      | (simp at hmsg)
  · rcases edit_transfer_cases p idx paySel amtRaw cm with e | ⟨t, t2, hq, e, hkq, hd⟩
    · rw [e]; exact hI
    · rw [e]
      simp only
      rw [recalcTotal_set p.history idx t2
        (fun u hu => by rw [hq] at hu; cases hu; exact ⟨hkq, hd⟩)]
      exact hI

/-- Witness for C8: a successful stake edit of a stored bet recomputes the
balance, and an out-of-range index is rejected. -/
theorem edit_transaction_spec_witness :
    (edit_bet
      { balance := 500,
        history :=
          [{ timestamp := 1, kind := Kind.BET, losers := "Sven verliert",
             comment := "", delta := 500 }],
        last_reset := none }
      3 true false (some 700) "" =
        ("Ungültige Auswahl.",
          { balance := 500,
            history :=
              [{ timestamp := 1, kind := Kind.BET, losers := "Sven verliert",
                 comment := "", delta := 500 }],
            last_reset := none })) ∧
    ((edit_bet
      { balance := 500,
        history :=
          [{ timestamp := 1, kind := Kind.BET, losers := "Sven verliert",
             comment := "", delta := 500 }],
        last_reset := none }
      0 true false (some 700) "").1 = "Wette aktualisiert." →
      (edit_bet
        { balance := 500,
          history :=
            [{ timestamp := 1, kind := Kind.BET, losers := "Sven verliert",
               comment := "", delta := 500 }],
          last_reset := none }
        0 true false (some 700) "").2.balance =
        recalcTotal (edit_bet
          { balance := 500,
            history :=
              [{ timestamp := 1, kind := Kind.BET, losers := "Sven verliert",
                 comment := "", delta := 500 }],
            last_reset := none }
          0 true false (some 700) "").2.history) := by
  have h1 := edit_transaction_spec
    { balance := 500,
      history :=
        [{ timestamp := 1, kind := Kind.BET, losers := "Sven verliert",
           comment := "", delta := 500 }],
      last_reset := none }
    3 true false (some 700) (some 700) "" ""
  have h2 := edit_transaction_spec
    { balance := 500,
      history :=
        [{ timestamp := 1, kind := Kind.BET, losers := "Sven verliert",
           comment := "", delta := 500 }],
      last_reset := none }
    0 true false (some 700) (some 700) "" ""
  exact ⟨(h1.1 (by norm_num)).1, h2.2.2.2.2.2.1⟩

/-! ### C7: CSV import atomicity -/

/-- C7: a CSV upload whose lowercased header column set is not exactly the
required 8-column set is rejected with no mutation; any per-row conversion
failure makes the whole import abort with no mutation; and a successful one
destructively overwrites history and `last_reset` and recomputes the
balance from the imported rows instead of reading it from the file. -/
theorem handle_upload_atomic (text : String) (now : Int) (p : Pot) :
    (importParse text now = none → handle_upload text now p = p) ∧
    (∀ lr hist, importParse text now = some (lr, hist) →
      handle_upload text now p =
        { history := hist, balance := recalcTotal hist, last_reset := lr }) ∧
    (∀ hdr rawRows,
      runLines none (stripHash (splitlines text) none).2 = hdr :: rawRows →
      headerMatches hdr = false → handle_upload text now p = p) ∧
    (∀ hdr rawRows,
      runLines none (stripHash (splitlines text) none).2 = hdr :: rawRows →
      (rawRows.filter (fun r => !r.isEmpty)).mapM (parseRow hdr now) = none →
      handle_upload text now p = p) := by
  have h1 : importParse text now = none → handle_upload text now p = p := by
    intro h
    unfold handle_upload
    rw [h]
  refine ⟨h1, fun lr hist h => ?_, fun hdr rawRows hrun hm => ?_,
    fun hdr rawRows hrun hmap => ?_⟩
  · unfold handle_upload
    rw [h]
  · refine h1 ?_
    unfold importParse
    by_cases he : (stripHash (splitlines text) none).2.isEmpty
    · simp [he]
    · simp [he, hrun, hm]
  · refine h1 ?_
    unfold importParse
    by_cases he : (stripHash (splitlines text) none).2.isEmpty
    · simp [he]
    · simp only [he, hrun, Bool.false_eq_true, if_false]
      split
      · rw [show (rawRows.filter (fun r => !r.isEmpty)).mapM (parseRow hdr now) = none
          from hmap]
        rfl
      · rfl

/-- Witness for C7: a one-line file with a wrong header leaves a nonempty
pot untouched. -/
theorem handle_upload_atomic_witness :
    handle_upload "foo" 0
      { balance := 500,
        history :=
          [{ timestamp := 1, kind := Kind.BET, losers := "Sven verliert",
             comment := "", delta := 500 }],
        last_reset := none } =
      { balance := 500,
        history :=
          [{ timestamp := 1, kind := Kind.BET, losers := "Sven verliert",
             comment := "", delta := 500 }],
        last_reset := none } :=
  (handle_upload_atomic "foo" 0
    { balance := 500,
      history :=
        [{ timestamp := 1, kind := Kind.BET, losers := "Sven verliert",
           comment := "", delta := 500 }],
      last_reset := none }).2.2.1 ["foo"] [] (by decide) (by decide)

/-! ### Character facts -/

theorem str_toList_append (a b : String) : (a ++ b).toList = a.toList ++ b.toList := rfl

theorem strMk_toList (s : String) : String.mk s.toList = s := rfl

theorem char_beq_false (c d : Char) (h : c.toNat ≠ d.toNat) : (c == d) = false := by
  cases hcd : c == d with
  | false => rfl
  | true => exact absurd (congrArg Char.toNat (eq_of_beq hcd)) h

theorem char_ne_of_toNat (c d : Char) (h : c.toNat ≠ d.toNat) : c ≠ d := by
  intro e
  exact h (congrArg Char.toNat e)

theorem not_linebreak_of_range (c : Char) (h1 : 45 ≤ c.toNat) (h2 : c.toNat ≤ 57) :
    isPyLineBreak c = false := by
  have e10 : (Char.ofNat 10).toNat = 10 := by decide
  have e11 : (Char.ofNat 11).toNat = 11 := by decide
  have e12 : (Char.ofNat 12).toNat = 12 := by decide
  have e13 : (Char.ofNat 13).toNat = 13 := by decide
  have e28 : (Char.ofNat 28).toNat = 28 := by decide
  have e29 : (Char.ofNat 29).toNat = 29 := by decide
  have e30 : (Char.ofNat 30).toNat = 30 := by decide
  have e133 : (Char.ofNat 133).toNat = 133 := by decide
  have e8232 : (Char.ofNat 0x2028).toNat = 8232 := by decide
  have e8233 : (Char.ofNat 0x2029).toNat = 8233 := by decide
  unfold isPyLineBreak
  rw [char_beq_false c _ (by omega), char_beq_false c _ (by omega),
    char_beq_false c _ (by omega), char_beq_false c _ (by omega),
    char_beq_false c _ (by omega), char_beq_false c _ (by omega),
    char_beq_false c _ (by omega), char_beq_false c _ (by omega),
    char_beq_false c _ (by omega), char_beq_false c _ (by omega)]
  rfl

theorem not_space_of_range (c : Char) (h1 : 45 ≤ c.toNat) : isPySpace c = false := by
  have e1 : (' ' : Char).toNat = 32 := by decide
  have e2 : ('\t' : Char).toNat = 9 := by decide
  have e3 : ('\n' : Char).toNat = 10 := by decide
  have e4 : ('\r' : Char).toNat = 13 := by decide
  have e5 : (Char.ofNat 11).toNat = 11 := by decide
  have e6 : (Char.ofNat 12).toNat = 12 := by decide
  unfold isPySpace
  rw [char_beq_false c _ (by omega), char_beq_false c _ (by omega),
    char_beq_false c _ (by omega), char_beq_false c _ (by omega),
    char_beq_false c _ (by omega), char_beq_false c _ (by omega)]
  rfl

theorem needsQuote_of_range (s : String)
    (h : ∀ c ∈ s.toList, 45 ≤ c.toNat ∧ c.toNat ≤ 57) : needsQuote s = false := by
  have ec : (',' : Char).toNat = 44 := by decide
  have eq : ('"' : Char).toNat = 34 := by decide
  have er : ('\r' : Char).toNat = 13 := by decide
  have en : ('\n' : Char).toNat = 10 := by decide
  unfold needsQuote
  rw [List.any_eq_false]
  intro c hc
  obtain ⟨h1, h2⟩ := h c hc
  rw [char_beq_false c _ (by omega), char_beq_false c _ (by omega),
    char_beq_false c _ (by omega), char_beq_false c _ (by omega)]
  simp

/-! ### Digit printing facts -/

theorem digit_char_fact :
    ∀ k, k < 10 → 48 ≤ (Char.ofNat (48 + k)).toNat ∧ (Char.ofNat (48 + k)).toNat ≤ 57 ∧
      (Char.ofNat (48 + k)).toNat - 48 = k := by decide

theorem natDigitsAux_acc (fuel : Nat) :
    ∀ n acc, natDigitsAux fuel n acc = natDigitsAux fuel n [] ++ acc := by
  induction fuel with
  | zero => intro n acc; rfl
  | succ f ih =>
    intro n acc
    by_cases h : n < 10
    · simp [natDigitsAux, h]
    · simp only [natDigitsAux, if_neg h]
      rw [ih, ih (n / 10) [Char.ofNat (48 + n % 10)], List.append_assoc]
      rfl

theorem natDigitsAux_length (fuel : Nat) :
    ∀ n acc, acc.length ≤ (natDigitsAux fuel n acc).length := by
  induction fuel with
  | zero => intro n acc; exact le_refl _
  | succ f ih =>
    intro n acc
    by_cases h : n < 10
    · simp [natDigitsAux, h]
    · simp only [natDigitsAux, if_neg h]
      calc acc.length ≤ (Char.ofNat (48 + n % 10) :: acc).length := by simp
        _ ≤ _ := ih (n / 10) _

theorem natDigits_ne_nil (n : Nat) : natDigits n ≠ [] := by
  have h : 1 ≤ (natDigits n).length := by
    unfold natDigits
    by_cases h : n < 10
    · simp [natDigitsAux, h]
    · simp only [natDigitsAux, if_neg h]
      calc 1 = ([Char.ofNat (48 + n % 10)] : List Char).length := rfl
        _ ≤ _ := natDigitsAux_length n (n / 10) _
  intro e
  rw [e] at h
  simp at h

theorem natDigitsAux_range (fuel : Nat) :
    ∀ n acc, (∀ c ∈ acc, 48 ≤ c.toNat ∧ c.toNat ≤ 57) →
      ∀ c ∈ natDigitsAux fuel n acc, 48 ≤ c.toNat ∧ c.toNat ≤ 57 := by
  induction fuel with
  | zero => intro n acc hacc; exact hacc
  | succ f ih =>
    intro n acc hacc c hc
    by_cases h : n < 10
    · simp only [natDigitsAux, if_pos h] at hc
      rcases List.mem_cons.mp hc with rfl | hmem
      · exact ⟨(digit_char_fact n h).1, (digit_char_fact n h).2.1⟩
      · exact hacc c hmem
    · simp only [natDigitsAux, if_neg h] at hc
      refine ih (n / 10) _ ?_ c hc
      intro d hd
      rcases List.mem_cons.mp hd with rfl | hmem
      · exact ⟨(digit_char_fact _ (Nat.mod_lt n (by omega))).1,
          (digit_char_fact _ (Nat.mod_lt n (by omega))).2.1⟩
      · exact hacc d hmem

theorem natDigits_range (n : Nat) : ∀ c ∈ natDigits n, 48 ≤ c.toNat ∧ c.toNat ≤ 57 :=
  natDigitsAux_range (n + 1) n [] (by simp)

theorem natDigitsAux_fuel (fuel : Nat) :
    ∀ fuel' n, n < 10 ^ fuel → n < 10 ^ fuel' → 1 ≤ fuel → 1 ≤ fuel' →
      natDigitsAux fuel n [] = natDigitsAux fuel' n [] := by
  induction fuel with
  | zero => intro fuel' n _ _ hf _; omega
  | succ f ih =>
    intro fuel' n h1 h2 _ hf'
    obtain ⟨f', rfl⟩ : ∃ f', fuel' = f' + 1 := ⟨fuel' - 1, by omega⟩
    by_cases h : n < 10
    · simp [natDigitsAux, h]
    · simp only [natDigitsAux, if_neg h]
      rw [natDigitsAux_acc f, natDigitsAux_acc f']
      have hfn : f ≠ 0 := by
        rintro rfl
        rw [pow_one] at h1
        omega
      have hfn' : f' ≠ 0 := by
        rintro rfl
        rw [pow_one] at h2
        omega
      rw [ih f' (n / 10)
        (by rw [Nat.div_lt_iff_lt_mul (by omega : 0 < 10)]; rw [pow_succ] at h1; omega)
        (by rw [Nat.div_lt_iff_lt_mul (by omega : 0 < 10)]; rw [pow_succ] at h2; omega)
        (by omega) (by omega)]

theorem nat_lt_ten_pow (n : Nat) : n < 10 ^ (n + 1) := by
  have h1 : n < 2 ^ n := Nat.lt_two_pow n
  have h2 : 2 ^ n ≤ 10 ^ n := Nat.pow_le_pow_left (by omega) n
  have h3 : 10 ^ n ≤ 10 ^ (n + 1) := Nat.pow_le_pow_right (by omega) (by omega)
  omega

theorem natDigits_small (n : Nat) (h : n < 10) : natDigits n = [Char.ofNat (48 + n)] := by
  simp [natDigits, natDigitsAux, h]

theorem natDigits_step (n : Nat) (h : 10 ≤ n) :
    natDigits n = natDigits (n / 10) ++ [Char.ofNat (48 + n % 10)] := by
  have h1 : ¬ n < 10 := by omega
  unfold natDigits
  conv_lhs => rw [show natDigitsAux (n + 1) n [] =
    natDigitsAux n (n / 10) [Char.ofNat (48 + n % 10)] from by
      simp [natDigitsAux, h1]]
  rw [natDigitsAux_acc]
  congr 1
  refine natDigitsAux_fuel n (n / 10 + 1) (n / 10) ?_ ?_ (by omega) (by omega)
  · calc n / 10 ≤ n := Nat.div_le_self n 10
      _ < 10 ^ n := by
        have h1 : n < 2 ^ n := Nat.lt_two_pow n
        have h2 : 2 ^ n ≤ 10 ^ n := Nat.pow_le_pow_left (by omega) n
        omega
  · exact nat_lt_ten_pow (n / 10)

/-! ### Parsing round trips for numerals -/

theorem isDigitChar_of_range (c : Char) (h1 : 48 ≤ c.toNat) (h2 : c.toNat ≤ 57) :
    isDigitChar c = true := by
  unfold isDigitChar
  simp [h1, h2]

theorem parseNatGo_append (xs : List Char) :
    ∀ a ys, parseNatGo a (xs ++ ys) = (parseNatGo a xs).bind (fun v => parseNatGo v ys) := by
  induction xs with
  | nil => intro a ys; rfl
  | cons c cs ih =>
    intro a ys
    by_cases h : isDigitChar c = true
    · simp [parseNatGo, h, ih]
    · simp [parseNatGo, h]

theorem parseNat_natDigits (n : Nat) : parseNatDigits (natDigits n) = some n := by
  induction n using Nat.strong_induction_on with
  | _ n ih =>
    by_cases h : n < 10
    · rw [natDigits_small n h]
      obtain ⟨hd1, hd2, hd3⟩ := digit_char_fact n h
      simp [parseNatDigits, parseNatGo, isDigitChar_of_range _ hd1 hd2, hd3]
    · rw [natDigits_step n (by omega)]
      rcases e : natDigits (n / 10) with _ | ⟨c, cs⟩
      · exact absurd e (natDigits_ne_nil _)
      · have ihn := ih (n / 10) (by omega)
        rw [e] at ihn
        have hc : isDigitChar c = true := by
          have := natDigits_range (n / 10) c (by rw [e]; exact List.mem_cons_self c cs)
          exact isDigitChar_of_range c this.1 this.2
        rw [parseNatDigits, if_pos hc] at ihn
        rw [List.cons_append, parseNatDigits, if_pos hc, parseNatGo_append, ihn]
        obtain ⟨hd1, hd2, hd3⟩ := digit_char_fact (n % 10) (Nat.mod_lt n (by omega))
        have e2 : parseNatGo (n / 10) [Char.ofNat (48 + n % 10)] = some n := by
          unfold parseNatGo
          rw [if_pos (isDigitChar_of_range _ hd1 hd2)]
          unfold parseNatGo
          congr 1
          omega
        simp [e2]

theorem isoformat_toList (t : Int) : (isoformat t).toList = intDigits t := rfl

theorem isoformat_ne_empty (t : Int) : isoformat t ≠ "" := by
  intro e
  have : (isoformat t).toList = [] := by rw [e]; rfl
  rw [isoformat_toList] at this
  unfold intDigits at this
  split at this
  · simp at this
  · exact natDigits_ne_nil _ this

theorem parseIso_isoformat (t : Int) : parseIso (isoformat t) = some t := by
  unfold parseIso
  rw [isoformat_toList]
  unfold intDigits
  by_cases h : t < 0
  · simp only [if_pos h, List.headD_cons, List.tail_cons, if_true]
    rw [parseNat_natDigits]
    simp [abs_of_neg h]
  · simp only [if_neg h]
    rcases e : natDigits t.natAbs with _ | ⟨c, cs⟩
    · exact absurd e (natDigits_ne_nil _)
    · have hr := natDigits_range t.natAbs c (by rw [e]; exact List.mem_cons_self c cs)
      have hcne : ¬ c = '-' := by
        have : ('-' : Char).toNat = 45 := by decide
        exact char_ne_of_toNat c '-' (by omega)
      simp only [List.headD_cons]
      rw [if_neg hcne, ← e, parseNat_natDigits]
      simp [abs_of_nonneg (not_lt.mp h)]

/-! ### formatCents facts and the decimal round trip -/

theorem formatCents_toList (n : Int) : (formatCents n).toList =
    (if n < 0 then ['-'] else []) ++ natDigits (n.natAbs / 100) ++
      '.' :: (if n.natAbs % 100 < 10 then '0' :: natDigits (n.natAbs % 100)
        else natDigits (n.natAbs % 100)) := rfl

theorem formatCents_range (n : Int) :
    ∀ c ∈ (formatCents n).toList, 45 ≤ c.toNat ∧ c.toNat ≤ 57 := by
  intro c hc
  rw [formatCents_toList] at hc
  have hdash : ('-' : Char).toNat = 45 := by decide
  have hdot : ('.' : Char).toNat = 46 := by decide
  have hzero : ('0' : Char).toNat = 48 := by decide
  rcases List.mem_append.mp hc with h1 | h2
  · rcases List.mem_append.mp h1 with hs | hb
    · revert hs
      split <;> intro hs
      · rw [List.mem_singleton.mp hs]
        omega
      · simp at hs
    · have := natDigits_range _ c hb
      omega
  · rcases List.mem_cons.mp h2 with rfl | h4
    · omega
    · revert h4
      split <;> intro h4
      · rcases List.mem_cons.mp h4 with rfl | h5
        · omega
        · have := natDigits_range _ c h5
          omega
      · have := natDigits_range _ c h4
        omega

theorem formatCents_ne_empty (n : Int) : formatCents n ≠ "" := by
  intro e
  have h : (formatCents n).toList = [] := by rw [e]; rfl
  rw [formatCents_toList] at h
  simp at h

theorem dropWhile_eq_self_of (l : List Char) (h : ∀ c ∈ l, isPySpace c = false) :
    l.dropWhile isPySpace = l := by
  cases l with
  | nil => rfl
  | cons c cs => simp [List.dropWhile_cons, h c (List.mem_cons_self c cs)]

theorem pyStrip_eq_self (s : String) (h : ∀ c ∈ s.toList, isPySpace c = false) :
    pyStrip s = s := by
  unfold pyStrip
  rw [dropWhile_eq_self_of _ h,
    dropWhile_eq_self_of _ (fun c hc => h c (List.mem_reverse.mp hc)),
    List.reverse_reverse, strMk_toList]

theorem splitAtDot_append (xs : List Char) (hx : ∀ c ∈ xs, ¬ c = '.') (ys : List Char) :
    splitAtDot (xs ++ '.' :: ys) = (xs, some ys) := by
  induction xs with
  | nil => simp [splitAtDot]
  | cons c cs ih =>
    simp only [List.cons_append, splitAtDot]
    rw [if_neg (hx c (List.mem_cons_self c cs))]
    simp only [List.append_eq]
    rw [ih (fun d hd => hx d (List.mem_cons_of_mem c hd))]

theorem parseNatGo_zero_natDigits (m : Nat) : parseNatGo 0 (natDigits m) = some m := by
  have hp := parseNat_natDigits m
  rcases e : natDigits m with _ | ⟨c, cs⟩
  · exact absurd e (natDigits_ne_nil m)
  · rw [e] at hp
    rw [parseNatDigits] at hp
    by_cases hc : isDigitChar c = true
    · rw [if_pos hc] at hp
      rw [parseNatGo, if_pos hc, Nat.zero_mul, Nat.zero_add]
      exact hp
    · rw [if_neg hc] at hp
      exact absurd hp (by simp)

theorem natDigits_two_digits (f : Nat) (h1 : 10 ≤ f) (h2 : f < 100) :
    natDigits f = [Char.ofNat (48 + f / 10), Char.ofNat (48 + f % 10)] := by
  rw [natDigits_step f h1, natDigits_small (f / 10) (by omega)]
  rfl

theorem parseDec2_happy (s : String) (c : Char) (cs ip fp : List Char)
    (hs : (pyStrip s).toList = c :: cs)
    (hbody : (if c = '-' ∨ c = '+' then cs else c :: cs) = ip ++ '.' :: fp)
    (hdot : ∀ d ∈ ip, ¬ d = '.')
    (hipall : ip.all isDigitChar = true)
    (hfpall : fp.all isDigitChar = true)
    (hipne : ip.isEmpty = false)
    (hfp2 : fp.drop 2 = []) :
    parseDec2 s =
      some (if c = '-' then
        -(Int.ofNat (((parseNatGo 0 ip).getD 0) * 100 + ((fp.headD '0').toNat - 48) * 10 +
          (((fp.drop 1).headD '0').toNat - 48)))
        else Int.ofNat (((parseNatGo 0 ip).getD 0) * 100 + ((fp.headD '0').toNat - 48) * 10 +
          (((fp.drop 1).headD '0').toNat - 48))) := by
  unfold parseDec2
  rw [hs]
  rw [parseDec2Aux, hbody, splitAtDot_append ip hdot fp]
  simp only [Option.getD_some, hipall, hfpall, hipne, hfp2, Bool.true_and, Bool.and_true,
    Bool.false_and, Bool.not_false, if_true, List.length_nil, Nat.lt_irrefl,
    decide_False, Bool.and_false]
  simp

theorem parseDec2_formatCents (n : Int) : parseDec2 (formatCents n) = some n := by
  have hq : ∀ c ∈ natDigits (n.natAbs / 100), isDigitChar c = true := fun c hc =>
    isDigitChar_of_range c (natDigits_range _ c hc).1 (natDigits_range _ c hc).2
  have hqdot : ∀ c ∈ natDigits (n.natAbs / 100), ¬ c = '.' := by
    intro c hc
    have := natDigits_range _ c hc
    have hdot : ('.' : Char).toNat = 46 := by decide
    exact char_ne_of_toNat c '.' (by omega)
  have hfrac2 : (if n.natAbs % 100 < 10 then '0' :: natDigits (n.natAbs % 100)
      else natDigits (n.natAbs % 100)) =
      if n.natAbs % 100 < 10 then ['0', Char.ofNat (48 + n.natAbs % 100)]
      else [Char.ofNat (48 + n.natAbs % 100 / 10), Char.ofNat (48 + n.natAbs % 100 % 10)] := by
    by_cases hf : n.natAbs % 100 < 10
    · rw [if_pos hf, if_pos hf, natDigits_small _ hf]
    · rw [if_neg hf, if_neg hf,
        natDigits_two_digits _ (by omega) (Nat.mod_lt _ (by omega))]
  have core : ∀ (fp : List Char), fp = (if n.natAbs % 100 < 10 then
        ['0', Char.ofNat (48 + n.natAbs % 100)]
      else [Char.ofNat (48 + n.natAbs % 100 / 10), Char.ofNat (48 + n.natAbs % 100 % 10)]) →
      fp.all isDigitChar = true ∧ fp.drop 2 = [] ∧
      ((fp.headD '0').toNat - 48) * 10 + (((fp.drop 1).headD '0').toNat - 48) +
        n.natAbs / 100 * 100 = n.natAbs := by
    intro fp hfp
    by_cases hf : n.natAbs % 100 < 10
    · rw [if_pos hf] at hfp
      subst hfp
      obtain ⟨ha1, ha2, ha3⟩ := digit_char_fact (n.natAbs % 100) hf
      have h0 : isDigitChar '0' = true := by decide
      have hz : ('0' : Char).toNat = 48 := by decide
      refine ⟨?_, rfl, ?_⟩
      · simp [List.all_cons, h0, isDigitChar_of_range _ ha1 ha2]
      · simp only [List.headD_cons, List.drop_succ_cons, List.drop_zero]
        have hm := Nat.mod_add_div n.natAbs 100
        omega
    · rw [if_neg hf] at hfp
      subst hfp
      obtain ⟨hb1, hb2, hb3⟩ := digit_char_fact (n.natAbs % 100 / 10) (by omega)
      obtain ⟨hc1, hc2, hc3⟩ := digit_char_fact (n.natAbs % 100 % 10) (by
        exact Nat.mod_lt _ (by omega))
      refine ⟨?_, rfl, ?_⟩
      · simp [List.all_cons, isDigitChar_of_range _ hb1 hb2, isDigitChar_of_range _ hc1 hc2]
      · simp only [List.headD_cons, List.drop_succ_cons, List.drop_zero]
        have hm := Nat.mod_add_div n.natAbs 100
        have hm2 := Nat.mod_add_div (n.natAbs % 100) 10
        omega
  obtain ⟨hall, hdrop, hval⟩ := core _ hfrac2
  have hstrip : pyStrip (formatCents n) = formatCents n :=
    pyStrip_eq_self _ (fun c hc => not_space_of_range c (formatCents_range n c hc).1)
  have hipall : (natDigits (n.natAbs / 100)).all isDigitChar = true :=
    List.all_eq_true.mpr hq
  have hipne : (natDigits (n.natAbs / 100)).isEmpty = false := by
    rcases e2 : natDigits (n.natAbs / 100) with _ | ⟨c, cs⟩
    · exact absurd e2 (natDigits_ne_nil _)
    · rfl
  have hgo := parseNatGo_zero_natDigits (n.natAbs / 100)
  by_cases h : n < 0
  · have hs : (pyStrip (formatCents n)).toList = '-' :: (natDigits (n.natAbs / 100) ++
        '.' :: (if n.natAbs % 100 < 10 then '0' :: natDigits (n.natAbs % 100)
          else natDigits (n.natAbs % 100))) := by
      rw [hstrip, formatCents_toList, if_pos h]
      simp
    rw [parseDec2_happy (formatCents n) '-' _ (natDigits (n.natAbs / 100)) _ hs
      (by rw [if_pos (Or.inl rfl)]) hqdot hipall hall hipne hdrop]
    rw [if_pos rfl, hgo]
    simp only [Option.getD_some, Int.ofNat_eq_coe, Option.some.injEq]
    omega
  · have hs : (pyStrip (formatCents n)).toList =
        (natDigits (n.natAbs / 100) ++
          '.' :: (if n.natAbs % 100 < 10 then '0' :: natDigits (n.natAbs % 100)
            else natDigits (n.natAbs % 100))) := by
      rw [hstrip, formatCents_toList, if_neg h]
      simp
    rcases e2 : natDigits (n.natAbs / 100) with _ | ⟨c, cs⟩
    · exact absurd e2 (natDigits_ne_nil _)
    · have hcr := natDigits_range (n.natAbs / 100) c (by
        rw [e2]; exact List.mem_cons_self c cs)
      have hcm : ¬ c = '-' := char_ne_of_toNat c '-' (by
        have : ('-' : Char).toNat = 45 := by decide
        omega)
      have hcp : ¬ c = '+' := char_ne_of_toNat c '+' (by
        have : ('+' : Char).toNat = 43 := by decide
        omega)
      have hor : ¬ (c = '-' ∨ c = '+') := by
        rintro (h1 | h1)
        · exact hcm h1
        · exact hcp h1
      rw [e2, List.cons_append] at hs
      rw [parseDec2_happy (formatCents n) c _ (natDigits (n.natAbs / 100)) _ hs
        (by rw [if_neg hor, ← List.cons_append, ← e2]) hqdot hipall hall hipne hdrop]
      rw [if_neg hcm, hgo]
      simp only [Option.getD_some, Int.ofNat_eq_coe, Option.some.injEq]
      omega

/-! ### splitlines on clean line bodies -/

/-- A text fragment free of Python line-break characters. -/
def cleanText (s : String) : Prop := ∀ c ∈ s.toList, isPyLineBreak c = false

instance (s : String) : Decidable (cleanText s) := by
  unfold cleanText
  infer_instance

theorem splitlinesGo_step (skipLF : Bool) (acc : List Char) (c : Char) (rest : List Char) :
    splitlinesGo skipLF acc (c :: rest) =
      if skipLF ∧ c = '\n' then splitlinesGo false acc rest
      else if c = '\r' then String.mk acc.reverse :: splitlinesGo true [] rest
      else if isPyLineBreak c then String.mk acc.reverse :: splitlinesGo false [] rest
      else splitlinesGo false (c :: acc) rest := rfl

theorem splitlinesGo_crlf (body : List Char) (hb : ∀ c ∈ body, isPyLineBreak c = false) :
    ∀ acc rest, splitlinesGo false acc (body ++ '\r' :: '\n' :: rest) =
      String.mk (acc.reverse ++ body) :: splitlinesGo false [] rest := by
  induction body with
  | nil =>
    intro acc rest
    rw [List.nil_append, splitlinesGo_step, if_neg (by simp), if_pos rfl, List.append_nil,
      splitlinesGo_step, if_pos ⟨rfl, rfl⟩]
  | cons c body ih =>
    intro acc rest
    have hc := hb c (List.mem_cons_self c body)
    have hcr : ¬ c = '\r' := by
      intro e
      rw [e] at hc
      exact absurd hc (by decide)
    rw [List.cons_append, splitlinesGo_step, if_neg (by simp), if_neg hcr,
      if_neg (by simp [hc]), ih (fun d hd => hb d (List.mem_cons_of_mem c hd)) (c :: acc) rest]
    congr 2
    simp

theorem splitlinesGo_lf (body : List Char) (hb : ∀ c ∈ body, isPyLineBreak c = false) :
    ∀ acc rest, splitlinesGo false acc (body ++ '\n' :: rest) =
      String.mk (acc.reverse ++ body) :: splitlinesGo false [] rest := by
  induction body with
  | nil =>
    intro acc rest
    rw [List.nil_append, splitlinesGo_step, if_neg (by simp), if_neg (by decide),
      if_pos (by decide), List.append_nil]
  | cons c body ih =>
    intro acc rest
    have hc := hb c (List.mem_cons_self c body)
    have hcr : ¬ c = '\r' := by
      intro e
      rw [e] at hc
      exact absurd hc (by decide)
    rw [List.cons_append, splitlinesGo_step, if_neg (by simp), if_neg hcr,
      if_neg (by simp [hc]), ih (fun d hd => hb d (List.mem_cons_of_mem c hd)) (c :: acc) rest]
    congr 2
    simp

/-! ### Cleanliness of generated CSV record bodies -/

theorem dqChars_mem (l : List Char) : ∀ c ∈ dqChars l, c ∈ l ∨ c = '"' := by
  induction l with
  | nil => intro c hc; simp [dqChars] at hc
  | cons d ds ih =>
    intro c hc
    by_cases hd : d = '"'
    · rw [dqChars, if_pos hd] at hc
      rcases List.mem_cons.mp hc with rfl | hc2
      · right; rfl
      · rcases List.mem_cons.mp hc2 with rfl | hc3
        · right; rfl
        · rcases ih c hc3 with h | h
          · exact Or.inl (List.mem_cons_of_mem d h)
          · exact Or.inr h
    · rw [dqChars, if_neg hd] at hc
      rcases List.mem_cons.mp hc with rfl | hc2
      · exact Or.inl (List.mem_cons_self c ds)
      · rcases ih c hc2 with h | h
        · exact Or.inl (List.mem_cons_of_mem d h)
        · exact Or.inr h

theorem quoteFieldChars_mem (s : String) :
    ∀ c ∈ quoteFieldChars s, c ∈ s.toList ∨ c = '"' := by
  intro c hc
  unfold quoteFieldChars at hc
  split at hc
  · rcases List.mem_cons.mp hc with rfl | hc2
    · right; rfl
    · rcases List.mem_append.mp hc2 with h | h
      · exact dqChars_mem _ c h
      · right
        exact List.mem_singleton.mp h
  · exact Or.inl hc

theorem csvBody_mem (fs : List String) :
    ∀ c ∈ csvBody fs, (∃ f ∈ fs, c ∈ f.toList) ∨ c = '"' ∨ c = ',' := by
  induction fs with
  | nil => intro c hc; simp [csvBody] at hc
  | cons f fs ih =>
    intro c hc
    cases fs with
    | nil =>
      rcases quoteFieldChars_mem f c hc with h | h
      · exact Or.inl ⟨f, List.mem_cons_self f [], h⟩
      · exact Or.inr (Or.inl h)
    | cons g gs =>
      rw [show csvBody (f :: g :: gs) = quoteFieldChars f ++ ',' :: csvBody (g :: gs)
        from rfl] at hc
      rcases List.mem_append.mp hc with h | h
      · rcases quoteFieldChars_mem f c h with h2 | h2
        · exact Or.inl ⟨f, List.mem_cons_self f _, h2⟩
        · exact Or.inr (Or.inl h2)
      · rcases List.mem_cons.mp h with rfl | h2
        · exact Or.inr (Or.inr rfl)
        · rcases ih c h2 with ⟨g2, hg2, hcg⟩ | h3
          · exact Or.inl ⟨g2, List.mem_cons_of_mem f hg2, hcg⟩
          · exact Or.inr h3

theorem csvBody_clean (fs : List String) (hf : ∀ f ∈ fs, cleanText f) :
    ∀ c ∈ csvBody fs, isPyLineBreak c = false := by
  intro c hc
  rcases csvBody_mem fs c hc with ⟨f, hfm, hcf⟩ | rfl | rfl
  · exact hf f hfm c hcf
  · decide
  · decide

/-! ### The reader automaton on generated records -/

theorem lineRun_start_cons (r : List String) (c : Char) (cs : List Char) :
    lineRun .startField [] r (c :: cs) =
      if c = ',' then lineRun .startField [] (r ++ [""]) cs
      else if c = '"' then lineRun .inQuoted [] r cs
      else lineRun .inField [c] r cs := rfl

theorem lineRun_inField_cons (field : List Char) (r : List String) (c : Char) (cs : List Char) :
    lineRun .inField field r (c :: cs) =
      if c = ',' then lineRun .startField [] (r ++ [String.mk field]) cs
      else lineRun .inField (field ++ [c]) r cs := rfl

theorem lineRun_inQuoted_cons (field : List Char) (r : List String) (c : Char) (cs : List Char) :
    lineRun .inQuoted field r (c :: cs) =
      if c = '"' then lineRun .quoteInQuoted field r cs
      else lineRun .inQuoted (field ++ [c]) r cs := rfl

theorem lineRun_quoteInQuoted_cons (field : List Char) (r : List String) (c : Char)
    (cs : List Char) :
    lineRun .quoteInQuoted field r (c :: cs) =
      if c = '"' then lineRun .inQuoted (field ++ ['"']) r cs
      else if c = ',' then lineRun .startField [] (r ++ [String.mk field]) cs
      else lineRun .inField (field ++ [c]) r cs := rfl

theorem lineRun_inField_plain (l : List Char) (hl : ∀ c ∈ l, ¬ c = ',') :
    ∀ field r rest, lineRun .inField field r (l ++ rest) = lineRun .inField (field ++ l) r rest := by
  induction l with
  | nil =>
    intro field r rest
    rw [List.nil_append, List.append_nil]
  | cons c l ih =>
    intro field r rest
    rw [List.cons_append, lineRun_inField_cons, if_neg (hl c (List.mem_cons_self c l)),
      ih (fun d hd => hl d (List.mem_cons_of_mem c hd)) (field ++ [c]) r rest]
    congr 1
    simp

theorem lineRun_inQuoted_dq (l : List Char) :
    ∀ field r rest,
      lineRun .inQuoted field r (dqChars l ++ rest) = lineRun .inQuoted (field ++ l) r rest := by
  induction l with
  | nil =>
    intro field r rest
    rw [show dqChars [] = [] from rfl, List.nil_append, List.append_nil]
  | cons c l ih =>
    intro field r rest
    by_cases hc : c = '"'
    · subst hc
      rw [show dqChars ('"' :: l) = '"' :: '"' :: dqChars l from by rw [dqChars, if_pos rfl],
        List.cons_append, List.cons_append, lineRun_inQuoted_cons, if_pos rfl,
        lineRun_quoteInQuoted_cons, if_pos rfl, ih (field ++ ['"']) r rest]
      congr 1
      simp
    · rw [show dqChars (c :: l) = c :: dqChars l from by rw [dqChars, if_neg hc],
        List.cons_append, lineRun_inQuoted_cons, if_neg hc, ih (field ++ [c]) r rest]
      congr 1
      simp

theorem needsQuote_head (f : String) (c : Char) (cs : List Char) (hfl : f.toList = c :: cs)
    (hq : ¬ needsQuote f = true) : ¬ c = ',' ∧ ¬ c = '"' := by
  constructor <;> intro e <;> apply hq <;> rw [needsQuote, hfl, e] <;> simp

theorem needsQuote_tail (f : String) (c : Char) (cs : List Char) (hfl : f.toList = c :: cs)
    (hq : ¬ needsQuote f = true) : ∀ d ∈ cs, ¬ d = ',' := by
  intro d hd e
  apply hq
  rw [needsQuote, hfl]
  simp only [List.any_eq_true]
  exact ⟨d, List.mem_cons_of_mem c hd, by rw [e]; simp⟩

theorem lineRun_field_comma (f : String) (r : List String) (rest : List Char) :
    lineRun .startField [] r (quoteFieldChars f ++ ',' :: rest) =
      lineRun .startField [] (r ++ [f]) rest := by
  unfold quoteFieldChars
  by_cases hq : needsQuote f = true
  · rw [if_pos hq, List.cons_append, lineRun_start_cons, if_neg (by decide), if_pos rfl,
      List.append_assoc, show ['"'] ++ ',' :: rest = '"' :: ',' :: rest from rfl,
      lineRun_inQuoted_dq f.toList [] r ('"' :: ',' :: rest), List.nil_append,
      lineRun_inQuoted_cons, if_pos rfl, lineRun_quoteInQuoted_cons, if_neg (by decide),
      if_pos rfl]
    rw [strMk_toList]
  · rw [if_neg hq]
    cases hfl : f.toList with
    | nil =>
      have hf0 : f = "" := by rw [← strMk_toList f, hfl]
      rw [List.nil_append, lineRun_start_cons, if_pos rfl, hf0]
    | cons c cs =>
      obtain ⟨hcomma, hquote⟩ := needsQuote_head f c cs hfl hq
      rw [List.cons_append, lineRun_start_cons, if_neg hcomma, if_neg hquote,
        lineRun_inField_plain cs (needsQuote_tail f c cs hfl hq) [c] r (',' :: rest),
        lineRun_inField_cons, if_pos rfl,
        show ([c] ++ cs : List Char) = f.toList from by rw [hfl]; rfl]
      rw [strMk_toList]

theorem lineRun_field_last (f : String) (r : List String) (hr : ¬ r = []) :
    lineRun .startField [] r (quoteFieldChars f) = .endRec (r ++ [f]) := by
  unfold quoteFieldChars
  by_cases hq : needsQuote f = true
  · rw [if_pos hq, lineRun_start_cons, if_neg (by decide), if_pos rfl,
      show dqChars f.toList ++ ['"'] = dqChars f.toList ++ '"' :: [] from rfl,
      lineRun_inQuoted_dq f.toList [] r ('"' :: []), List.nil_append,
      lineRun_inQuoted_cons, if_pos rfl,
      show lineRun .quoteInQuoted f.toList r [] = .endRec (r ++ [String.mk f.toList]) from rfl]
    rw [strMk_toList]
  · rw [if_neg hq]
    cases hfl : f.toList with
    | nil =>
      have hf0 : f = "" := by rw [← strMk_toList f, hfl]
      have hre : r.isEmpty = false := by
        cases r
        · exact absurd rfl hr
        · rfl
      rw [show lineRun .startField [] r [] =
        .endRec (if r.isEmpty then [] else r ++ [""]) from rfl, hre, hf0]
      rfl
    | cons c cs =>
      obtain ⟨hcomma, hquote⟩ := needsQuote_head f c cs hfl hq
      rw [show (c :: cs : List Char) = [c] ++ cs ++ [] from by simp, List.append_assoc,
        List.cons_append]
      rw [lineRun_start_cons, if_neg hcomma, if_neg hquote, List.nil_append,
        lineRun_inField_plain cs (needsQuote_tail f c cs hfl hq) [c] r [],
        show lineRun .inField ([c] ++ cs) r [] = .endRec (r ++ [String.mk ([c] ++ cs)]) from rfl,
        show ([c] ++ cs : List Char) = f.toList from by rw [hfl]; rfl]
      rw [strMk_toList]

theorem lineRun_record_aux (fs : List String) :
    ∀ r, ¬ fs = [] → ¬ r = [] →
      lineRun .startField [] r (csvBody fs) = .endRec (r ++ fs) := by
  induction fs with
  | nil => intro r hfs _; exact absurd rfl hfs
  | cons f fs ih =>
    intro r _ hr
    cases fs with
    | nil => exact lineRun_field_last f r hr
    | cons g gs =>
      rw [show csvBody (f :: g :: gs) = quoteFieldChars f ++ ',' :: csvBody (g :: gs) from rfl,
        lineRun_field_comma, ih (r ++ [f]) (by simp) (by simp), List.append_assoc]
      rfl

theorem lineRun_record (f g : String) (gs : List String) :
    lineRun .startField [] [] (csvBody (f :: g :: gs)) = .endRec (f :: g :: gs) := by
  rw [show csvBody (f :: g :: gs) = quoteFieldChars f ++ ',' :: csvBody (g :: gs) from rfl,
    lineRun_field_comma, List.nil_append,
    lineRun_record_aux (g :: gs) [f] (by simp) (by simp)]
  rfl

theorem runLines_cons_none (l : String) (rest : List String) :
    runLines none (l :: rest) =
      match lineRun .startField [] [] l.toList with
      | .endRec r => r :: runLines none rest
      | .contQuoted f r => runLines (some (f, r)) rest := rfl

theorem runLines_records (rs : List (List String)) (h2 : ∀ r ∈ rs, 2 ≤ r.length) :
    runLines none (rs.map (fun r => String.mk (csvBody r))) = rs := by
  induction rs with
  | nil => rfl
  | cons r rs ih =>
    obtain ⟨f, g, gs, rfl⟩ : ∃ f g gs, r = f :: g :: gs := by
      have hl := h2 r (List.mem_cons_self r rs)
      match r with
      | f :: g :: gs => exact ⟨f, g, gs, rfl⟩
      | [] => simp at hl
      | [f] => simp at hl
    rw [List.map_cons, runLines_cons_none,
      show (String.mk (csvBody (f :: g :: gs))).toList = csvBody (f :: g :: gs) from rfl,
      lineRun_record]
    show (f :: g :: gs) :: runLines none (rs.map fun r => String.mk (csvBody r)) = _
    rw [ih (fun r hr => h2 r (List.mem_cons_of_mem _ hr))]

/-! ### Cleanliness of the fields the export writes -/

theorem intDigits_range (i : Int) : ∀ c ∈ intDigits i, 45 ≤ c.toNat ∧ c.toNat ≤ 57 := by
  intro c hc
  unfold intDigits at hc
  split at hc
  · rcases List.mem_cons.mp hc with rfl | h
    · decide
    · have := natDigits_range _ c h
      omega
  · have := natDigits_range _ c hc
    omega

theorem isoformat_clean (t : Int) : cleanText (isoformat t) := by
  intro c hc
  rw [isoformat_toList] at hc
  have h := intDigits_range t c hc
  exact not_linebreak_of_range c h.1 h.2

theorem formatCents_clean (n : Int) : cleanText (formatCents n) := by
  intro c hc
  have h := formatCents_range n c hc
  exact not_linebreak_of_range c h.1 h.2

theorem kind_value_clean (k : Kind) : cleanText k.value := by
  cases k <;> decide

theorem txnFields_clean (t : Transaction) (hl : cleanText t.losers) (hcm : cleanText t.comment)
    (hp : cleanText t.payer) (hrc : cleanText t.receiver) :
    ∀ f ∈ txnFields t, cleanText f := by
  intro f hf
  simp only [txnFields, List.mem_cons, List.not_mem_nil, or_false] at hf
  rcases hf with rfl | rfl | rfl | rfl | rfl | rfl | rfl | rfl
  · exact isoformat_clean t.timestamp
  · exact kind_value_clean t.kind
  · exact formatCents_clean t.delta
  · exact hl
  · exact hp
  · exact hrc
  · exact formatCents_clean t.transfer_amount
  · exact hcm

/-! ### `splitlines` of the export text -/

theorem splitlines_exportRows (h : List Transaction)
    (hc : ∀ t ∈ h, ∀ f ∈ txnFields t, cleanText f) :
    splitlinesGo false [] (exportRows h).toList =
      h.map (fun t => String.mk (csvBody (txnFields t))) := by
  induction h with
  | nil => rfl
  | cons t ts ih =>
    rw [show exportRows (t :: ts) = writeRecord (txnFields t) ++ exportRows ts from rfl,
      str_toList_append,
      show (writeRecord (txnFields t)).toList = csvBody (txnFields t) ++ ['\r', '\n'] from rfl,
      List.append_assoc,
      show ['\r', '\n'] ++ (exportRows ts).toList = '\r' :: '\n' :: (exportRows ts).toList
        from rfl,
      splitlinesGo_crlf (csvBody (txnFields t))
        (csvBody_clean _ (hc t (List.mem_cons_self t ts))) [] _,
      ih (fun u hu => hc u (List.mem_cons_of_mem t hu)), List.map_cons]
    rfl

theorem stripHash_cons (l : String) (rest : List String) (st : Option Int) :
    stripHash (l :: rest) st =
      if strStartsWith l "#" then
        stripHash rest
          (if strStartsWith (strToLower l) "# last_reset=" then
            if pyStrip (String.mk (afterFirstEq l.toList)) = "" then st
            else
              match parseIso (pyStrip (String.mk (afterFirstEq l.toList))) with
              | some d => some d
              | none => st
          else st)
      else (st, l :: rest) := rfl

theorem listPrefixOf_append_self (l x : List Char) : listPrefixOf l (l ++ x) = true := by
  induction l with
  | nil => rfl
  | cons c cs ih => simp [listPrefixOf, ih]

theorem pyToLower_fixed_of_range (c : Char) (h : c.toNat ≤ 57) : pyToLower c = c := by
  unfold pyToLower
  rw [if_neg (by omega)]

theorem strMk_data (l : List Char) : (String.mk l).toList = l := rfl

theorem stripHash_splitlines_export (p : Pot)
    (hc : ∀ t ∈ p.history, ∀ f ∈ txnFields t, cleanText f) :
    stripHash (splitlines (export_csv p)) none =
      (p.last_reset,
        String.mk (csvBody csvHeader) ::
          p.history.map (fun t => String.mk (csvBody (txnFields t)))) := by
  have hheader : ¬ strStartsWith (String.mk (csvBody csvHeader)) "#" = true := by decide
  cases hlr : p.last_reset with
  | none =>
    have htl : (export_csv p).toList =
        csvBody csvHeader ++ '\r' :: '\n' :: (exportRows p.history).toList := by
      unfold export_csv
      rw [hlr]
      rfl
    unfold splitlines
    rw [htl, splitlinesGo_crlf (csvBody csvHeader) (by decide) [] _,
      splitlines_exportRows p.history hc,
      show ([].reverse ++ csvBody csvHeader : List Char) = csvBody csvHeader from rfl,
      stripHash_cons, if_neg hheader]
  | some lr =>
    have htl : (export_csv p).toList =
        ("# last_reset=".toList ++ intDigits lr) ++
          '\n' :: (csvBody csvHeader ++ '\r' :: '\n' :: (exportRows p.history).toList) := by
      unfold export_csv
      rw [hlr]
      show ((("# last_reset=" ++ isoformat lr ++ "\n") ++
        writeRecord csvHeader) ++ exportRows p.history).toList = _
      rw [str_toList_append, str_toList_append, str_toList_append, str_toList_append,
        isoformat_toList,
        show (writeRecord csvHeader).toList = csvBody csvHeader ++ ['\r', '\n'] from rfl,
        show ("\n" : String).toList = ['\n'] from rfl]
      simp [List.append_assoc]
    unfold splitlines
    rw [htl, splitlinesGo_lf ("# last_reset=".toList ++ intDigits lr) ?hclean [] _]
    case hclean =>
      intro c hcm
      rcases List.mem_append.mp hcm with h | h
      · exact (by decide : ∀ c ∈ ("# last_reset=" : String).toList, isPyLineBreak c = false) c h
      · have h2 := intDigits_range lr c h
        exact not_linebreak_of_range c h2.1 h2.2
    rw [show ([].reverse ++ ("# last_reset=".toList ++ intDigits lr) : List Char) =
        "# last_reset=".toList ++ intDigits lr from by rw [List.reverse_nil, List.nil_append],
      splitlinesGo_crlf (csvBody csvHeader) (by decide) [] _,
      splitlines_exportRows p.history hc,
      show ([].reverse ++ csvBody csvHeader : List Char) = csvBody csvHeader from rfl,
      stripHash_cons,
      if_pos (show strStartsWith (String.mk ("# last_reset=".toList ++ intDigits lr)) "#" = true
        from rfl)]
    have hlow : strStartsWith
        (strToLower (String.mk ("# last_reset=".toList ++ intDigits lr))) "# last_reset=" =
        true := by
      unfold strToLower strStartsWith
      show listPrefixOf "# last_reset=".toList
        (List.map pyToLower ("# last_reset=".toList ++ intDigits lr)) = true
      rw [List.map_append,
        show "# last_reset=".toList.map pyToLower = "# last_reset=".toList from by decide]
      exact listPrefixOf_append_self _ _
    rw [if_pos hlow,
      show afterFirstEq (String.mk ("# last_reset=".toList ++ intDigits lr)).toList =
        intDigits lr from rfl,
      show String.mk (intDigits lr) = isoformat lr from rfl,
      pyStrip_eq_self (isoformat lr) ?hsp, if_neg (isoformat_ne_empty lr), parseIso_isoformat]
    case hsp =>
      intro c hcm
      rw [isoformat_toList] at hcm
      exact not_space_of_range c (intDigits_range lr c hcm).1
    rw [stripHash_cons, if_neg hheader]

/-! ### Row parsing inverts row writing -/

theorem parseRow_txnFields (now : Int) (t : Transaction) :
    parseRow csvHeader now (txnFields t) = some t := by
  have hts : (if isoformat t.timestamp = "" then some now
      else parseIso (isoformat t.timestamp)) = some t.timestamp := by
    rw [if_neg (isoformat_ne_empty t.timestamp), parseIso_isoformat]
  have hk : parseKind t.kind.value = some t.kind := by cases t.kind <;> rfl
  have hd : parseDec2 (if formatCents t.delta = "" then "0.00" else formatCents t.delta) =
      some t.delta := by
    rw [if_neg (formatCents_ne_empty t.delta), parseDec2_formatCents]
  have hta : parseDec2 (if formatCents t.transfer_amount = "" then "0.00"
      else formatCents t.transfer_amount) = some t.transfer_amount := by
    rw [if_neg (formatCents_ne_empty t.transfer_amount), parseDec2_formatCents]
  have hshape : parseRow csvHeader now (txnFields t) =
      (do
        let ts ← if isoformat t.timestamp = "" then some now
          else parseIso (isoformat t.timestamp)
        let kind ← parseKind t.kind.value
        let delta ← parseDec2 (if formatCents t.delta = "" then "0.00" else formatCents t.delta)
        let tamt ← parseDec2 (if formatCents t.transfer_amount = "" then "0.00"
          else formatCents t.transfer_amount)
        some { timestamp := ts, kind := kind, losers := t.losers, comment := t.comment,
               delta := delta, payer := t.payer, receiver := t.receiver,
               transfer_amount := tamt } : Option Transaction) := rfl
  rw [hshape, if_neg (isoformat_ne_empty t.timestamp), parseIso_isoformat, hk, hd, hta]
  rfl

theorem mapM_loop_parseRow (now : Int) (h : List Transaction) :
    ∀ acc, List.mapM.loop (parseRow csvHeader now) (h.map txnFields) acc =
      some (acc.reverse ++ h) := by
  induction h with
  | nil =>
    intro acc
    simp [List.mapM.loop]
  | cons t ts ih =>
    intro acc
    rw [List.map_cons,
      show List.mapM.loop (parseRow csvHeader now) (txnFields t :: ts.map txnFields) acc =
        (parseRow csvHeader now (txnFields t)).bind
          (fun b => List.mapM.loop (parseRow csvHeader now) (ts.map txnFields) (b :: acc))
        from rfl,
      parseRow_txnFields]
    show List.mapM.loop (parseRow csvHeader now) (ts.map txnFields) (t :: acc) = _
    rw [ih (t :: acc)]
    simp

theorem mapM_parseRow (now : Int) (h : List Transaction) :
    (h.map txnFields).mapM (parseRow csvHeader now) = some h := by
  rw [show (h.map txnFields).mapM (parseRow csvHeader now) =
      List.mapM.loop (parseRow csvHeader now) (h.map txnFields) [] from rfl,
    mapM_loop_parseRow]
  rfl

/-! ### The import pipeline on exported text -/

theorem importParse_export (p : Pot) (now : Int)
    (hc : ∀ t ∈ p.history, ∀ f ∈ txnFields t, cleanText f) :
    importParse (export_csv p) now = some (p.last_reset, p.history) := by
  unfold importParse
  rw [stripHash_splitlines_export p hc]
  show (if (String.mk (csvBody csvHeader) ::
      p.history.map (fun t => String.mk (csvBody (txnFields t)))).isEmpty = true then none
    else _) = _
  rw [if_neg (by simp)]
  rw [show (String.mk (csvBody csvHeader) ::
        p.history.map (fun t => String.mk (csvBody (txnFields t)))) =
      (csvHeader :: p.history.map txnFields).map (fun r => String.mk (csvBody r))
    from by rw [List.map_cons, List.map_map]; rfl]
  rw [runLines_records (csvHeader :: p.history.map txnFields) ?hlen]
  case hlen =>
    intro r hr
    rcases List.mem_cons.mp hr with rfl | hr2
    · decide
    · obtain ⟨t, _, rfl⟩ := List.mem_map.mp hr2
      simp [txnFields]
  show (if headerMatches csvHeader = true then _ else none) = _
  rw [if_pos (by decide)]
  rw [show (p.history.map txnFields).filter (fun r => !r.isEmpty) = p.history.map txnFields
    from List.filter_eq_self.mpr (fun r hr => by
      obtain ⟨t, _, rfl⟩ := List.mem_map.mp hr
      rfl)]
  rw [mapM_parseRow]
  rfl

theorem handle_upload_export (p : Pot) (now : Int) (q : Pot)
    (hc : ∀ t ∈ p.history, ∀ f ∈ txnFields t, cleanText f) :
    handle_upload (export_csv p) now q =
      { history := p.history, balance := recalcTotal p.history,
        last_reset := p.last_reset } := by
  unfold handle_upload
  rw [importParse_export p now hc]

/-! ### C6: CSV round trip -/

/-- C6 (amended): the claimed unconditional CSV round trip holds for every
ledger whose text fields (`losers`, `comment`, `payer`, `receiver`) are free
of line-break characters: importing the exported CSV reproduces the history
field-for-field in order and the `last_reset` value (including `None`), the
balance being the recomputation over the imported history.  The original
claim is false without the restriction, because `splitlines` followed by
`csv.reader` over separate lines loses the line breaks inside quoted
fields (see the counterexample). -/
theorem csv_roundtrip (p : Pot) (now : Int) (q : Pot)
    (hc : ∀ t ∈ p.history, cleanText t.losers ∧ cleanText t.comment ∧
      cleanText t.payer ∧ cleanText t.receiver) :
    handle_upload (export_csv p) now q =
      { history := p.history, balance := recalcTotal p.history,
        last_reset := p.last_reset } := by
  apply handle_upload_export
  intro t ht
  obtain ⟨h1, h2, h3, h4⟩ := hc t ht
  exact txnFields_clean t h1 h2 h3 h4

/-- Witness for C6: a concrete two-entry ledger whose comments contain a
comma and an escaped quote (so both rows exercise the quoting path), with
`last_reset` set, round-trips exactly; the cleanliness hypothesis is
discharged by computation. -/
theorem csv_roundtrip_witness :
    (∀ t ∈ ({ balance := 700,
              history :=
                [{ timestamp := -3, kind := Kind.BET, losers := "Sven verliert",
                   comment := "hey, du", delta := 500 },
                 { timestamp := 7, kind := Kind.TRANSFER, losers := "",
                   comment := "ein \"Test\"", delta := 0, payer := "Sven",
                   receiver := "Sevi", transfer_amount := 250 }],
              last_reset := some 42 } : Pot).history,
      cleanText t.losers ∧ cleanText t.comment ∧ cleanText t.payer ∧ cleanText t.receiver) ∧
    handle_upload (export_csv
      { balance := 700,
        history :=
          [{ timestamp := -3, kind := Kind.BET, losers := "Sven verliert",
             comment := "hey, du", delta := 500 },
           { timestamp := 7, kind := Kind.TRANSFER, losers := "",
             comment := "ein \"Test\"", delta := 0, payer := "Sven",
             receiver := "Sevi", transfer_amount := 250 }],
        last_reset := some 42 }) 5 {} =
      { balance := 500,
        history :=
          [{ timestamp := -3, kind := Kind.BET, losers := "Sven verliert",
             comment := "hey, du", delta := 500 },
           { timestamp := 7, kind := Kind.TRANSFER, losers := "",
             comment := "ein \"Test\"", delta := 0, payer := "Sven",
             receiver := "Sevi", transfer_amount := 250 }],
        last_reset := some 42 } :=
  ⟨by decide,
    csv_roundtrip
      { balance := 700,
        history :=
          [{ timestamp := -3, kind := Kind.BET, losers := "Sven verliert",
             comment := "hey, du", delta := 500 },
           { timestamp := 7, kind := Kind.TRANSFER, losers := "",
             comment := "ein \"Test\"", delta := 0, payer := "Sven",
             receiver := "Sevi", transfer_amount := 250 }],
        last_reset := some 42 } 5 {} (by decide)⟩

/-- Counterexample to the unconditional C6: a comment containing a line
break is written as a quoted field spanning two physical lines, and the
importer (which splits the text into lines before parsing) reads it back with
the line break lost, so the imported history differs from the original. -/
theorem csv_roundtrip_counterexample :
    (handle_upload (export_csv
      { balance := 0,
        history :=
          [{ timestamp := 0, kind := Kind.BET, losers := "", comment := "x\ny",
             delta := 0 }],
        last_reset := none }) 0 {}).history ≠
      [{ timestamp := 0, kind := Kind.BET, losers := "", comment := "x\ny",
         delta := 0 }] := by
  decide

end FiveLiber
